import Mathlib

/-!
Verification of the company-import function app (xai/index.js).

The JavaScript source is shallowly embedded: strings are lists of
characters, JavaScript values are `JsVal`, and the three outbound calls
(completion API, geocoding API, document store) are oracles supplied
through environment records. Machine numbers are modelled as rationals
(the pipeline performs no arithmetic on them beyond comparisons).
-/

abbrev Str := List Char

/-- Whitespace recognized by JavaScript String.prototype.trim and by the
regex class \s (ASCII subset; exotic Unicode space code points are not
modelled). -/
def isJsWs (c : Char) : Bool :=
  c = ' ' || c = '\t' || c = '\n' || c = '\r' || c.toNat = 11 || c.toNat = 12

def dropWs (l : Str) : Str := l.dropWhile isJsWs

/-- JavaScript String.prototype.trim. -/
def jsTrim (l : Str) : Str := ((dropWs l).reverse.dropWhile isJsWs).reverse

/-- Modelled JavaScript (JSON-expressible) values. Object property lists
keep insertion order; for a duplicated key the later entry shadows the
earlier one, as after JSON.parse. `undefined` is represented by `none`
at use sites (`Option JsVal`). -/
inductive JsVal where
  | null : JsVal
  | bool : Bool → JsVal
  | num : ℚ → JsVal
  | str : Str → JsVal
  | arr : List JsVal → JsVal
  | obj : List (Str × JsVal) → JsVal

/-- JavaScript truthiness (NaN and -0 do not arise in the model). -/
def truthy : JsVal → Bool
  | .null => false
  | .bool b => b
  | .num q => q != 0
  | .str s => !s.isEmpty
  | .arr _ => true
  | .obj _ => true

def truthyOpt : Option JsVal → Bool
  | none => false
  | some v => truthy v

/-- Property read `v[k]`; `none` plays the role of `undefined`. For a
duplicated key the last entry wins (JSON.parse keeps the last value). -/
def jget (v : JsVal) (k : Str) : Option JsVal :=
  match v with
  | .obj o => ((o.filter (fun p => p.1 == k)).getLast?).map (fun p => p.2)
  | _ => none

/-- Property write `v[k] = x` on an object: replaces the binding in place
or appends it. On non-objects the write is lost (non-strict semantics is
irrelevant at the modelled call sites, see `backCompat`). -/
def jset (v : JsVal) (k : Str) (x : JsVal) : JsVal :=
  match v with
  | .obj o =>
      if o.any (fun p => p.1 == k) then
        .obj (o.map (fun p => if p.1 == k then (p.1, x) else p))
      else .obj (o ++ [(k, x)])
  | other => other

/-- JavaScript `a || b` where `a` may be undefined. -/
def orJ (a : Option JsVal) (b : JsVal) : JsVal :=
  match a with
  | some v => if truthy v then v else b
  | none => b

/-- JavaScript strict equality `===` as the pipeline uses it on record
fields. Primitives compare by value. Two object or array values coming
from distinct JSON.parse events are never reference-equal, and the
dedup filter only ever compares fields of records built from distinct
parsed fragments, so the object and array cases are `false`. -/
def jsStrictEq : JsVal → JsVal → Bool
  | .null, .null => true
  | .bool a, .bool b => a == b
  | .num a, .num b => a == b
  | .str a, .str b => a == b
  | _, _ => false

/-- Optional-chained `v?.length`: strings and arrays report their length,
plain objects their "length" property, other values `undefined`. -/
def jsLength : JsVal → Option JsVal
  | .str s => some (.num s.length)
  | .arr l => some (.num l.length)
  | .obj o => jget (.obj o) (("length").toList)
  | _ => none

def natDigits (n : Nat) : Str := Nat.toDigits 10 n

/-- Decimal digits of the fraction num/den (0 ≤ num < den), fuel-bounded.
JSON numbers have power-of-ten denominators, so the expansion terminates
before the fuel runs out; other rationals are printed truncated (an
approximation of JS float formatting, unused by the claims). -/
def fracDigits : Nat → Nat → Nat → Str
  | 0, _, _ => []
  | _ + 1, 0, _ => []
  | fuel + 1, num, den =>
      natDigits (num * 10 / den) ++ fracDigits fuel (num * 10 % den) den

/-- JavaScript number-to-string coercion for finite decimal values. -/
def numToStr (q : ℚ) : Str :=
  let sign : Str := if q < 0 then [Char.ofNat 45] else []
  let n := q.num.natAbs
  let d := q.den
  sign ++ natDigits (n / d) ++
    (if n % d = 0 then [] else '.' :: fracDigits 40 (n % d) d)

/-- Array.prototype.join with a fixed separator string. -/
def joinSep (sep : Str) : List Str → Str
  | [] => []
  | [x] => x
  | x :: y :: rest => x ++ sep ++ joinSep sep (y :: rest)

def joinComma (l : List Str) : Str := joinSep [','] l

-- JavaScript String(v) coercion. Arrays join their elements with commas,
-- printing null (and undefined) elements as empty strings.
mutual

def jsToStr : JsVal → Str
  | .null => ("null").toList
  | .bool true => ("true").toList
  | .bool false => ("false").toList
  | .num q => numToStr q
  | .str s => s
  | .arr l => joinComma (jsArrStrs l)
  | .obj _ => ("[object Object]").toList

def jsArrStrs : List JsVal → List Str
  | [] => []
  | .null :: rest => [] :: jsArrStrs rest
  | v :: rest => jsToStr v :: jsArrStrs rest

end

/-- Substring membership test, as for RegExp.test of a literal pattern. -/
def hasSubStr (pat : Str) : Str → Bool
  | [] => pat.isEmpty
  | l@(_ :: rest) => pat.isPrefixOf l || hasSubStr pat rest

def splitFirstChar (c : Char) : Str → Option (Str × Str)
  | [] => none
  | x :: rest =>
      if x = c then some ([], rest)
      else (splitFirstChar c rest).map (fun p => (x :: p.1, p.2))

def breakOn (p : Char → Bool) (l : Str) : Str × Str :=
  (l.takeWhile (fun c => !(p c)), l.dropWhile (fun c => !(p c)))

def firstIdx (c : Char) (l : Str) : Option Nat := l.findIdx? (· = c)

def lastIdx (c : Char) (l : Str) : Option Nat :=
  (l.reverse.findIdx? (· = c)).map (fun i => l.length - 1 - i)

/-! ## JSON.parse -/

def isJsonWs (c : Char) : Bool :=
  c = ' ' || c = '\t' || c = '\n' || c = '\r'

def skipJsonWs (l : Str) : Str := l.dropWhile isJsonWs

def isDigit (c : Char) : Bool := 48 ≤ c.toNat && c.toNat ≤ 57

def digitsToNat (l : Str) : Nat := l.foldl (fun acc c => acc * 10 + (c.toNat - 48)) 0

def hexVal (c : Char) : Option Nat :=
  if 48 ≤ c.toNat && c.toNat ≤ 57 then some (c.toNat - 48)
  else if 97 ≤ c.toNat && c.toNat ≤ 102 then some (c.toNat - 87)
  else if 65 ≤ c.toNat && c.toNat ≤ 70 then some (c.toNat - 55)
  else none

/-- String body after the opening quote: returns content and the rest
following the closing quote. Surrogate pairs are not recombined. -/
def parseStrBody : Nat → Str → Option (Str × Str)
  | 0, _ => none
  | _ + 1, [] => none
  | fuel + 1, c :: rest =>
    if c = '"' then some ([], rest)
    else if c = '\\' then
      match rest with
      | [] => none
      | e :: rest2 =>
        if e = '"' then (parseStrBody fuel rest2).map (fun p => ('"' :: p.1, p.2))
        else if e = '\\' then (parseStrBody fuel rest2).map (fun p => ('\\' :: p.1, p.2))
        else if e = '/' then (parseStrBody fuel rest2).map (fun p => ('/' :: p.1, p.2))
        else if e = 'b' then (parseStrBody fuel rest2).map (fun p => (Char.ofNat 8 :: p.1, p.2))
        else if e = 'f' then (parseStrBody fuel rest2).map (fun p => (Char.ofNat 12 :: p.1, p.2))
        else if e = 'n' then (parseStrBody fuel rest2).map (fun p => ('\n' :: p.1, p.2))
        else if e = 'r' then (parseStrBody fuel rest2).map (fun p => ('\r' :: p.1, p.2))
        else if e = 't' then (parseStrBody fuel rest2).map (fun p => ('\t' :: p.1, p.2))
        else if e = 'u' then
          match rest2 with
          | h1 :: h2 :: h3 :: h4 :: rest3 =>
            match hexVal h1, hexVal h2, hexVal h3, hexVal h4 with
            | some a, some b, some c2, some d =>
                (parseStrBody fuel rest3).map
                  (fun p => (Char.ofNat (((a * 16 + b) * 16 + c2) * 16 + d) :: p.1, p.2))
            | _, _, _, _ => none
          | _ => none
        else none
    else if c.toNat < 32 then none
    else (parseStrBody fuel rest).map (fun p => (c :: p.1, p.2))

def mkJsonNum (neg : Bool) (ip fd : Str) (e : ℤ) : ℚ :=
  let v : ℚ := (digitsToNat (ip ++ fd) : ℚ) * (10 : ℚ) ^ (e - fd.length)
  if neg then -v else v

def parseExpPart (neg : Bool) (ip fd : Str) : Str → Option (ℚ × Str)
  | c :: r =>
    if c = 'e' || c = 'E' then
      let (esign, r1) : ℤ × Str :=
        match r with
        | s :: r2 => if s = '+' then (1, r2) else if s = '-' then (-1, r2) else (1, r)
        | [] => (1, [])
      let ed := r1.takeWhile isDigit
      if ed.isEmpty then none
      else some (mkJsonNum neg ip fd (esign * (digitsToNat ed : ℤ)), r1.drop ed.length)
    else some (mkJsonNum neg ip fd 0, c :: r)
  | [] => some (mkJsonNum neg ip fd 0, [])

def parseNumberTok (l : Str) : Option (ℚ × Str) :=
  let (neg, l1) : Bool × Str :=
    match l with
    | c :: rest => if c = '-' then (true, rest) else (false, l)
    | [] => (false, [])
  let ip := l1.takeWhile isDigit
  if ip.isEmpty then none
  else if 1 < ip.length && ip.headD '0' = '0' then none
  else
    match l1.drop ip.length with
    | '.' :: r =>
        let fd := r.takeWhile isDigit
        if fd.isEmpty then none
        else parseExpPart neg ip fd (r.drop fd.length)
    | rest => parseExpPart neg ip [] rest

mutual

def parseVal : Nat → Str → Option (JsVal × Str)
  | 0, _ => none
  | fuel + 1, l =>
    match skipJsonWs l with
    | [] => none
    | c :: rest =>
      if c = '[' then
        match skipJsonWs rest with
        | ']' :: r => some (.arr [], r)
        | r2 => (parseItems fuel r2).map (fun p => (.arr p.1, p.2))
      else if c = '\x7b' then
        match skipJsonWs rest with
        | '\x7d' :: r => some (.obj [], r)
        | r2 => (parseMembers fuel r2).map (fun p => (.obj p.1, p.2))
      else if c = '"' then (parseStrBody (rest.length + 1) rest).map (fun p => (.str p.1, p.2))
      else if c = 't' then
        if (("rue").toList).isPrefixOf rest then some (.bool true, rest.drop 3) else none
      else if c = 'f' then
        if (("alse").toList).isPrefixOf rest then some (.bool false, rest.drop 4) else none
      else if c = 'n' then
        if (("ull").toList).isPrefixOf rest then some (.null, rest.drop 3) else none
      else if c = '-' || isDigit c then
        (parseNumberTok (c :: rest)).map (fun p => (.num p.1, p.2))
      else none

def parseItems : Nat → Str → Option (List JsVal × Str)
  | 0, _ => none
  | fuel + 1, l =>
    match parseVal fuel l with
    | none => none
    | some (v, rest) =>
      match skipJsonWs rest with
      | ',' :: r => (parseItems fuel r).map (fun p => (v :: p.1, p.2))
      | ']' :: r => some ([v], r)
      | _ => none

def parseMembers : Nat → Str → Option (List (Str × JsVal) × Str)
  | 0, _ => none
  | fuel + 1, l =>
    match skipJsonWs l with
    | '"' :: rest =>
      match parseStrBody (rest.length + 1) rest with
      | none => none
      | some (k, r1) =>
        match skipJsonWs r1 with
        | ':' :: r2 =>
          match parseVal fuel r2 with
          | none => none
          | some (v, r3) =>
            match skipJsonWs r3 with
            | ',' :: r4 => (parseMembers fuel r4).map (fun p => ((k, v) :: p.1, p.2))
            | '\x7d' :: r4 => some ([(k, v)], r4)
            | _ => none
        | _ => none
    | _ => none

end

/-- JSON.parse: the whole input, up to surrounding JSON whitespace, must
be one value. -/
def jsonParse (s : Str) : Option JsVal :=
  match parseVal (2 * s.length + 2) s with
  | some (v, rest) => if (skipJsonWs rest).isEmpty then some v else none
  | none => none

/-! ## URL model (WHATWG URL, restricted)

Only absolute http(s) "://" URLs are modelled: scheme and host are
ASCII-lowercased while parsing (which also makes the case-insensitive
amazon regex a plain substring test), an empty path serializes as "/",
a default port is dropped, and the raw query and fragment strings are
preserved. Userinfo, percent-encoding, path normalization and
non-special schemes are not modelled; inputs outside this fragment are
treated as parse failures (new URL accepts slightly more). -/

structure UrlRec where
  scheme : Str
  host : Str
  port : Option Nat
  path : Str
  query : Option Str
  frag : Option Str
deriving DecidableEq

def isAsciiAlpha (c : Char) : Bool :=
  (65 ≤ c.toNat && c.toNat ≤ 90) || (97 ≤ c.toNat && c.toNat ≤ 122)

/-- Forbidden host code points (the WHATWG ASCII list; userinfo is not
modelled, so an at-sign also counts as a parse failure here). -/
def hostCharOk (c : Char) : Bool :=
  !(c.toNat = 0 || c = '\t' || c = '\n' || c = '\r' || c = ' ' || c = '#' ||
    c = '%' || c = '/' || c = ':' || c = '<' || c = '>' || c = '?' || c = '@' ||
    c = '[' || c = '\\' || c = ']' || c = '^' || c = '|')

def lowerChar (c : Char) : Char :=
  if 65 ≤ c.toNat && c.toNat ≤ 90 then Char.ofNat (c.toNat + 32) else c

def parseUrl (raw : Str) : Option UrlRec :=
  let s := jsTrim raw
  let al := s.takeWhile isAsciiAlpha
  let sch := al.map lowerChar
  if al.isEmpty then none
  else if sch != ("http").toList && sch != ("https").toList then none
  else
    match s.drop al.length with
    | ':' :: '/' :: '/' :: r =>
      let (auth, tl) := breakOn (fun c => c = '/' || c = '?' || c = '#') r
      let (hostRaw, portRaw) := breakOn (· = ':') auth
      if hostRaw.isEmpty || !hostRaw.all hostCharOk then none
      else
        let host := hostRaw.map lowerChar
        let portParsed : Option (Option Nat) :=
          match portRaw with
          | [] => some none
          | ':' :: [] => some none
          | ':' :: ds =>
            if ds.all isDigit then
              let p := digitsToNat ds
              if (sch == ("http").toList && p == 80) ||
                 (sch == ("https").toList && p == 443)
              then some none else some (some p)
            else none
          | _ => none
        match portParsed with
        | none => none
        | some port =>
          let (pathQ, fragPart) := breakOn (· = '#') tl
          let (path, qPart) := breakOn (· = '?') pathQ
          let query : Option Str :=
            match qPart with
            | '?' :: q => some q
            | _ => none
          let frag : Option Str :=
            match fragPart with
            | '#' :: f => some f
            | _ => none
          some ⟨sch, host, port, path, query, frag⟩
    | _ => none

def urlToString (u : UrlRec) : Str :=
  u.scheme ++ ("://").toList ++ u.host ++
    (match u.port with
     | some p => ':' :: natDigits p
     | none => []) ++
    (if u.path.isEmpty then [Char.ofNat 47] else u.path) ++
    (match u.query with
     | some q => '?' :: q
     | none => []) ++
    (match u.frag with
     | some f => '#' :: f
     | none => [])

def splitOnPred (p : Char → Bool) : Str → List Str
  | [] => [[]]
  | x :: rest =>
    if p x then [] :: splitOnPred p rest
    else
      match splitOnPred p rest with
      | [] => [[x]]
      | seg :: segs => (x :: seg) :: segs

/-- URLSearchParams view of a raw query string: split on ampersands, drop
empty segments, split each segment at its first equals sign. Percent- and
plus-decoding are not modelled (the pipeline only writes plain ASCII). -/
def queryPairs (q : Str) : List (Str × Str) :=
  ((splitOnPred (· = '&') q).filter (fun s => !s.isEmpty)).map (fun seg =>
    match splitFirstChar '=' seg with
    | some (k, v) => (k, v)
    | none => (seg, []))

def serializeQuery (ps : List (Str × Str)) : Str :=
  joinSep ['&'] (ps.map (fun p => p.1 ++ '=' :: p.2))

def setParamGo (k v : Str) : List (Str × Str) → List (Str × Str)
  | [] => []
  | p :: rest =>
    if p.1 == k then (k, v) :: rest.filter (fun p2 => !(p2.1 == k))
    else p :: setParamGo k v rest

/-- URLSearchParams.set: replace the first binding of the key and remove
any later ones, or append a new binding at the end. -/
def setParam (ps : List (Str × Str)) (k v : Str) : List (Str × Str) :=
  if ps.any (fun p => p.1 == k) then setParamGo k v ps else ps ++ [(k, v)]

def getParam (q : Option Str) (k : Str) : Option Str :=
  ((queryPairs (q.getD [])).find? (fun p => p.1 == k)).map (fun p => p.2)

/-- url.searchParams.set(k, v): mutates the query, which is subsequently
serialized from its parsed pairs. -/
def urlSetParam (u : UrlRec) (k v : Str) : UrlRec :=
  { u with query := some (serializeQuery (setParam (queryPairs (u.query.getD [])) k v)) }

/-! ## Leaf helpers of xai/index.js -/

/-- isValidUrl: new URL(s) must succeed and have an http(s) protocol. -/
def isValidUrl (s : Str) : Bool :=
  match parseUrl s with
  | some u => u.scheme == ("http").toList || u.scheme == ("https").toList
  | none => false

/-- isValidEmail: the regex test of one at-sign with nonempty
whitespace-free sides, the domain side containing an inner dot. -/
def isValidEmail (s : Str) : Bool :=
  let t := jsTrim s
  match splitFirstChar '@' t with
  | none => false
  | some (lpart, rest) =>
    !lpart.isEmpty && lpart.all (fun c => !isJsWs c) &&
    !rest.isEmpty && rest.all (fun c => !isJsWs c && !(c = '@')) &&
    ((rest.drop 1).dropLast).any (· = '.')

/-- The https-default of both toNormalizedDomain and ensureAffiliateTag:
strings not starting with "http" have "https://" prefixed before URL
parsing. -/
def prefixHttp (s : Str) : Str :=
  if (("http").toList).isPrefixOf s then s else ("https://").toList ++ s

/-- toNormalizedDomain: lowercased hostname of the (https-defaulted) URL
with a leading "www." stripped; "unknown" when empty or unparseable. -/
def toNormalizedDomain (urlOrHost : Str) : Str :=
  let s := jsTrim urlOrHost
  if s.isEmpty then ("unknown").toList
  else
    match parseUrl (prefixHttp s) with
    | none => ("unknown").toList
    | some u =>
      let h := if (("www.").toList).isPrefixOf u.host then u.host.drop 4 else u.host
      if h.isEmpty then ("unknown").toList else h

/-- clampTimeout; `none` stands for a non-finite number (NaN). -/
def clampTimeout (ms : Option ℚ) : ℚ :=
  match ms with
  | none => 300000
  | some q => min 3600000 (max 10000 q)

/-- ensureAffiliateTag. Falsy input yields ""; string input is parsed as
a URL (https:// is prefixed unless the string starts with "http"); a
hostname containing "amazon." gets tag=tabarnam00-20 set; parse failures
return the input unchanged. Non-string truthy input throws inside the
try (no startsWith method) and is likewise returned unchanged. -/
def ensureAffiliateTag (input : JsVal) : JsVal :=
  if !truthy input then .str []
  else
    match input with
    | .str s =>
      match parseUrl (prefixHttp s) with
      | none => .str s
      | some u =>
        let u2 := if hasSubStr (("amazon.").toList) u.host
                  then urlSetParam u (("tag").toList) (("tabarnam00-20").toList)
                  else u
        .str (urlToString u2)
    | other => other

def dedupFirstGo (seen : List Str) : List Str → List Str
  | [] => []
  | x :: rest =>
    if seen.any (fun s => s == x) then dedupFirstGo seen rest
    else x :: dedupFirstGo (x :: seen) rest

def isDelim (c : Char) : Bool := c = ',' || c = ';' || c = '|'

/-- normalizeIndustries: arrays are stringified, trimmed, blanks dropped
and first-occurrence deduplicated; strings are split on comma, semicolon
or pipe first; anything else yields []. -/
def normalizeIndustries : JsVal → List Str
  | .arr l =>
      dedupFirstGo [] ((l.map (fun s => jsTrim (jsToStr s))).filter (fun s => !s.isEmpty))
  | .str s =>
      dedupFirstGo [] (((splitOnPred isDelim s).map jsTrim).filter (fun s => !s.isEmpty))
  | _ => []

structure Review where
  text : Str
  link : Option Str
deriving DecidableEq

/-- One entry of coerceReviews: strings wrap as text; objects read text
and link (nullish to ""), keeping the link only when it is a valid URL;
arrays read like objects but have neither property; other values give
empty text. -/
def coerceOneReview (x : JsVal) : Review :=
  match x with
  | .str s => ⟨s, none⟩
  | .obj o =>
    let text := jsTrim (match jget (.obj o) (("text").toList) with
      | some .null => []
      | some v => jsToStr v
      | none => [])
    let link := jsTrim (match jget (.obj o) (("link").toList) with
      | some .null => []
      | some v => jsToStr v
      | none => [])
    ⟨text, if isValidUrl link then some link else none⟩
  | _ => ⟨[], none⟩

/-- coerceReviews: falsy input gives no reviews, arrays are coerced
entrywise with empty-text entries discarded, a nonempty string wraps as
one review, and anything else gives no reviews. -/
def coerceReviews (rv : Option JsVal) : List Review :=
  match rv with
  | none => []
  | some v =>
    if !truthy v then []
    else
      match v with
      | .arr l => (l.map coerceOneReview).filter (fun o => !o.text.isEmpty)
      | .str s => [⟨s, none⟩]
      | _ => []

structure ContactInfo where
  contact_page_url : Option Str
  contact_email : Option Str
deriving DecidableEq

/-- sanitizeContactInfo: each field is optional-chained off the input,
stringified, trimmed, validated, and omitted when invalid. -/
def sanitizeContactInfo (ci : Option JsVal) : ContactInfo :=
  let url := jsTrim (jsToStr (orJ (ci.bind (fun v => jget v (("contact_page_url").toList))) (.str [])))
  let email := jsTrim (jsToStr (orJ (ci.bind (fun v => jget v (("contact_email").toList))) (.str [])))
  ⟨if isValidUrl url then some url else none,
   if isValidEmail email then some email else none⟩

/-- geocodeLocation. `key` is the configured geocoding credential
(`none` when unset), `location` the value passed in, `lookup` the
outcome of the axios GET: an exception, or the optionally present
results[0].geometry.location pair. Every failure shape collapses to
(0, 0); the function is total, so no exception escapes to the caller. -/
def geocodeLocation (key : Option Str) (location : JsVal)
    (lookup : Except Unit (Option (ℚ × ℚ))) : ℚ × ℚ :=
  if !truthyOpt (key.map .str) || !truthy location then (0, 0)
  else
    match lookup with
    | .error _ => (0, 0)
    | .ok none => (0, 0)
    | .ok (some g) => g

/-! ## Text-to-records extractor (trimToArrayJson) -/

def t3 : Str := ("```").toList

def startsTicks (l : Str) : Bool := t3.isPrefixOf l

/-- Split at the first occurrence of three backticks: what precedes it
and what follows it. -/
def splitTicks : Str → Option (Str × Str)
  | [] => none
  | c :: rest =>
    if startsTicks (c :: rest) then some ([], rest.drop 2)
    else (splitTicks rest).map (fun p => (c :: p.1, p.2))

/-- One attempt of the fence regex at a position already known to open
with three backticks: skip an optional case-insensitive json tag, skip
whitespace (greedy), capture lazily up to the closing fence. -/
def fenceCapture (afterOpen : Str) : Option Str :=
  let a1 := if (afterOpen.take 4).map lowerChar = ("json").toList
            then afterOpen.drop 4 else afterOpen
  (splitTicks (dropWs a1)).map (fun p => p.1)

/-- The match of /```(?:json)?\s*([\s\S]*?)```/i : attempt every start
position left to right, as a regex scan does. -/
def fenceFind : Str → Option Str
  | [] => none
  | c :: rest =>
    match (if startsTicks (c :: rest) then fenceCapture (rest.drop 2) else none) with
    | some cap => some cap
    | none => fenceFind rest

/-- trimToArrayJson: strip a fenced block if present, then try in order
an object parse (itself or its companies member being an array), a
direct array parse, and a parse of the slice from the first opening to
the last closing bracket. -/
def trimToArrayJson (text : Str) : Option JsVal × Str :=
  if text.isEmpty then (none, ("empty").toList)
  else
    let s0 := jsTrim text
    let s := match fenceFind s0 with
      | some inner => jsTrim inner
      | none => s0
    let objTry : Option (Option JsVal × Str) :=
      match s with
      | '\x7b' :: _ =>
        match jsonParse s with
        | some v =>
          match v with
          | .arr l => some (some (.arr l), ("object-is-array").toList)
          | _ =>
            match jget v (("companies").toList) with
            | some (.arr l) => some (some (.arr l), ("object.companies").toList)
            | _ => none
        | none => none
      | _ => none
    match objTry with
    | some r => r
    | none =>
      let arrTry : Option (Option JsVal × Str) :=
        match s with
        | '[' :: _ =>
          match jsonParse s with
          | some v => some (some v, ("array").toList)
          | none => none
        | _ => none
      match arrTry with
      | some r => r
      | none =>
        match firstIdx '[' s, lastIdx ']' s with
        | some a, some b =>
          if a < b then
            match jsonParse ((s.drop a).take (b + 1 - a)) with
            | some v => (some v, ("sliced-array").toList)
            | none => (none, ("unparseable").toList)
          else (none, ("unparseable").toList)
        | _, _ => (none, ("unparseable").toList)

/-- The page-level acceptance test in callXAI: parsed.companies must be
a (truthy) nonempty array, otherwise the loop breaks. -/
def arrOfContent (content : Str) : Option (List JsVal) :=
  match (trimToArrayJson content).1 with
  | some (.arr l) => if l.isEmpty then none else some l
  | _ => none

/-! ## Per-fragment normalization (body of the page loop in callXAI) -/

structure Doc where
  company_name : JsVal
  company_tagline : JsVal
  industries : List Str
  product_keywords : Str
  url : Str
  email_address : Str
  headquarters_location : JsVal
  manufacturing_locations : List JsVal
  amazon_url : JsVal
  red_flag : Bool
  hq_lat : ℚ
  hq_lng : ℚ
  lat : ℚ
  long : ℚ
  manu_lats : List ℚ
  manu_lngs : List ℚ
  reviews : List Review
  notes : Str
  company_contact_info : ContactInfo
  id : Str
  session_id : Option Str
  created_at : Str
  normalized_domain : Str

/-- The fields of a normalized record other than the freshly generated
id and created_at. -/
structure DocCore where
  company_name : JsVal
  company_tagline : JsVal
  industries : List Str
  product_keywords : Str
  url : Str
  email_address : Str
  headquarters_location : JsVal
  manufacturing_locations : List JsVal
  amazon_url : JsVal
  red_flag : Bool
  hq_lat : ℚ
  hq_lng : ℚ
  lat : ℚ
  long : ℚ
  manu_lats : List ℚ
  manu_lngs : List ℚ
  reviews : List Review
  notes : Str
  company_contact_info : ContactInfo
  session_id : Option Str
  normalized_domain : Str

def docCore (d : Doc) : DocCore :=
  ⟨d.company_name, d.company_tagline, d.industries, d.product_keywords, d.url,
   d.email_address, d.headquarters_location, d.manufacturing_locations,
   d.amazon_url, d.red_flag, d.hq_lat, d.hq_lng, d.lat, d.long, d.manu_lats,
   d.manu_lngs, d.reviews, d.notes, d.company_contact_info, d.session_id,
   d.normalized_domain⟩

/-- Oracles and configuration for one callXAI invocation. `contentOf`
gives the completion response text per page number (`none`: the request
threw or yielded no content); `geo` gives the geocoding lookup outcome
per location value; `ids` and `times` enumerate the freshly generated
ids and timestamps. The streaming Cosmos upsert only logs its failures
and returns no data, so it needs no oracle. -/
structure PipeEnv where
  geoKey : Option Str
  geo : JsVal → Except Unit (Option (ℚ × ℚ))
  ids : Nat → Str
  times : Nat → Str
  sessionId : Option Str
  contentOf : Nat → Option Str

/-- String.prototype.split(". ") (the separator used for taglines). -/
def splitDotSpace : Str → List Str
  | [] => [[]]
  | '.' :: ' ' :: rest => [] :: splitDotSpace rest
  | c :: rest =>
    match splitDotSpace rest with
    | [] => [[c]]
    | seg :: segs => (c :: seg) :: segs

/-- company_tagline resolution: the explicit field if truthy, else the
first sentence of description, product_focus or products. Splitting a
truthy non-string fallback (which has no split method) raises the
TypeError that the per-fragment catch turns into dropping the
fragment. -/
def taglineOf (company : JsVal) : Except Unit JsVal :=
  let ct := jget company (("company_tagline").toList)
  if truthyOpt ct then .ok (ct.getD .null)
  else
    let d := orJ (jget company (("description").toList))
      (orJ (jget company (("product_focus").toList))
        (orJ (jget company (("products").toList)) (.str [])))
    match d with
    | .str s => .ok (.str ((splitDotSpace s).headD []))
    | _ => .error ()

def manuFallback (company : JsVal) : List JsVal :=
  match jget company (("manufacturing").toList) with
  | some m => if truthy m then [m] else []
  | none => []

/-- manufacturing_locations resolution: the field when it is a nonempty
array, else a singleton of a truthy manufacturing field, else empty. -/
def manuListOf (company : JsVal) : List JsVal :=
  match jget company (("manufacturing_locations").toList) with
  | some (.arr l) => if l.isEmpty then manuFallback company else l
  | _ => manuFallback company

/-- product_keywords resolution: the first of product_keywords,
related_products, keywords that is a string (taken as-is) or an array
(elements stringified and joined with comma-space); otherwise "". -/
def keywordsOf (company : JsVal) : Str :=
  match jget company (("product_keywords").toList) with
  | some (.str s) => s
  | some (.arr l) => joinSep ((", ").toList) (l.map jsToStr)
  | _ =>
    match jget company (("related_products").toList) with
    | some (.str s) => s
    | some (.arr l) => joinSep ((", ").toList) (l.map jsToStr)
    | _ =>
      match jget company (("keywords").toList) with
      | some (.str s) => s
      | some (.arr l) => joinSep ((", ").toList) (l.map jsToStr)
      | _ => []

def industriesFallback (company : JsVal) : JsVal :=
  .arr [orJ (jget company (("category").toList)) (.str [])]

/-- The argument fed to normalizeIndustries: company.industries when its
optional-chained length is truthy, else a singleton of category. -/
def industriesArgOf (company : JsVal) : JsVal :=
  match jget company (("industries").toList) with
  | some v => if truthyOpt (jsLength v) then v else industriesFallback company
  | none => industriesFallback company

/-- One iteration of the per-company loop of callXAI: geocode the
headquarters and each manufacturing location through the oracle,
normalize every field, and build the stored document. `none` models the
tagline TypeError (the fragment is logged and skipped). The id and
timestamp are drawn at position `ctr`. -/
def normalizeCompany (env : PipeEnv) (company : JsVal) (ctr : Nat) : Option Doc :=
  let hqLoc := orJ (jget company (("headquarters_location").toList))
    (orJ (jget company (("headquarters").toList)) (.str []))
  let hq := geocodeLocation env.geoKey hqLoc (env.geo hqLoc)
  let manuList := manuListOf company
  let manuGeos := manuList.map (fun loc => geocodeLocation env.geoKey loc (env.geo loc))
  let url := jsTrim (jsToStr (orJ (jget company (("url").toList))
    (orJ (jget company (("website").toList)) (.str []))))
  match taglineOf company with
  | .error _ => none
  | .ok tg =>
    some
      { company_name := orJ (jget company (("company_name").toList))
          (orJ (jget company (("name").toList))
            (orJ (jget company (("company").toList)) (.str (("Unknown").toList)))),
        company_tagline := tg,
        industries := normalizeIndustries (industriesArgOf company),
        product_keywords := keywordsOf company,
        url := url,
        email_address := jsTrim (jsToStr (orJ (jget company (("email_address").toList))
          (orJ (jget company (("email").toList)) (.str [])))),
        headquarters_location := if truthy hqLoc then hqLoc else .str (("Unknown").toList),
        manufacturing_locations := manuList,
        amazon_url := ensureAffiliateTag (orJ (jget company (("amazon_url").toList))
          (orJ (jget company (("amazon").toList)) (.str []))),
        red_flag := truthyOpt (jget company (("red_flag").toList)),
        hq_lat := hq.1,
        hq_lng := hq.2,
        lat := hq.1,
        long := hq.2,
        manu_lats := manuGeos.map (fun g => g.1),
        manu_lngs := manuGeos.map (fun g => g.2),
        reviews := coerceReviews (jget company (("reviews").toList)),
        notes := jsTrim (jsToStr (orJ (jget company (("notes").toList)) (.str []))),
        company_contact_info := sanitizeContactInfo (jget company (("company_contact_info").toList)),
        id := env.ids ctr,
        session_id := env.sessionId,
        created_at := env.times ctr,
        normalized_domain := toNormalizedDomain url }

/-- The guard `!company || typeof company !== "object"` of the loop:
objects and arrays pass (typeof null is "object" but null is falsy). -/
def isObjLike : JsVal → Bool
  | .obj _ => true
  | .arr _ => true
  | _ => false

/-- The for-loop over one page's fragments: non-objects are skipped, a
tagline TypeError drops its fragment, survivors are collected in order.
Returns the page's clean list and the advanced id counter. -/
def normalizePage (env : PipeEnv) : List JsVal → Nat → List Doc × Nat
  | [], ctr => ([], ctr)
  | c :: rest, ctr =>
    if isObjLike c then
      match normalizeCompany env c ctr with
      | some d =>
        let pr := normalizePage env rest (ctr + 1)
        (d :: pr.1, pr.2)
      | none => normalizePage env rest ctr
    else normalizePage env rest ctr

/-- The dedup predicate of the page loop: strictly equal company_name
and strictly equal normalized_domain. -/
def keyEq (e c : Doc) : Bool :=
  jsStrictEq e.company_name c.company_name && e.normalized_domain == c.normalized_domain

/-- The while-loop of callXAI over pages. The fuel argument mirrors the
page bound (page starts at 1 and increases on every path, so fuel
maxImports + 1 is never the binding exit). -/
def xaiLoop (env : PipeEnv) (maxImports : Nat) :
    Nat → Nat → List Doc → Nat → List Doc
  | 0, _, all, _ => all
  | fuel + 1, page, all, ctr =>
    if page ≤ maxImports ∧ all.length < maxImports then
      match env.contentOf page with
      | none => xaiLoop env maxImports fuel (page + 1) all ctr
      | some content =>
        match arrOfContent content with
        | none => all
        | some comps =>
          let pr := normalizePage env comps ctr
          let uniq := pr.1.filter (fun c => !(all.any (fun e => keyEq e c)))
          let all2 := all ++ uniq
          if uniq.isEmpty then all2
          else xaiLoop env maxImports fuel (page + 1) all2 pr.2
    else all

/-- callXAI: the accumulated companies list (the debug trace and the
fire-and-forget Cosmos writes are not part of the returned data). -/
def callXAI (env : PipeEnv) (maxImports : Nat) : List Doc :=
  xaiLoop env maxImports (maxImports + 1) 1 [] 0

/-! ## Request validation and the HTTP handler (run) -/

structure ParsedReq where
  maxImports : ℚ
  timeout_ms : Option ℚ
  timeoutMs : Option ℚ
  search : Option JsVal

def searchKeys : List Str :=
  [("company_name").toList, ("product_keywords").toList, ("industries").toList,
   ("headquarters_location").toList, ("manufacturing_locations").toList,
   ("email_address").toList, ("url").toList, ("amazon_url").toList]

def searchFieldOk (s : JsVal) (k : Str) : Bool :=
  match jget s k with
  | none => true
  | some (.str _) => true
  | some _ => false

/-- The z.number().int().min(1).max(50).optional().default(1) check of
maxImports (NaN cannot arise from a JsVal number). -/
def reqMaxImports (b : JsVal) : Except Unit ℚ :=
  match jget b (("maxImports").toList) with
  | none => .ok 1
  | some (.num q) =>
      if q.den = 1 ∧ 1 ≤ q ∧ q ≤ 50 then .ok q else .error ()
  | some _ => .error ()

/-- The z.number().int().optional() check shared by timeout_ms and
timeoutMs. -/
def reqTimeoutField (b : JsVal) (k : Str) : Except Unit (Option ℚ) :=
  match jget b k with
  | none => .ok none
  | some (.num q) => if q.den = 1 then .ok (some q) else .error ()
  | some _ => .error ()

/-- The optional search sub-object: when present it must be an object
whose eight known fields, when present, are strings. -/
def reqSearchField (b : JsVal) : Except Unit (Option JsVal) :=
  match jget b (("search").toList) with
  | none => .ok none
  | some (.obj o) =>
      if searchKeys.all (searchFieldOk (.obj o)) then .ok (some (.obj o))
      else .error ()
  | some _ => .error ()

/-- requestSchema.parse. z.object rejects non-objects (arrays and null
included); the field checks are reqMaxImports, reqTimeoutField and
reqSearchField. The chain .strict().passthrough() leaves the
unknown-keys mode at "passthrough" (the last call wins), so unknown
keys are accepted and ignored (zod additionally carries them through
into its output, which the handler never reads). -/
def requestSchemaParse (b : JsVal) : Except Unit ParsedReq :=
  match b with
  | .obj _ =>
    match reqMaxImports b with
    | .error e => .error e
    | .ok mi =>
      match reqTimeoutField b (("timeout_ms").toList) with
      | .error e => .error e
      | .ok t1 =>
        match reqTimeoutField b (("timeoutMs").toList) with
        | .error e => .error e
        | .ok t2 =>
          match reqSearchField b with
          | .error e => .error e
          | .ok sv => .ok ⟨mi, t1, t2, sv⟩
  | _ => .error ()

/-- The queryType name table of the back-compat block. -/
def queryTypeMap (k : Str) : Option Str :=
  if k == ("company_name").toList then some (("company_name").toList)
  else if k == ("product_keyword").toList then some (("product_keywords").toList)
  else if k == ("product_keywords").toList then some (("product_keywords").toList)
  else if k == ("industries").toList then some (("industries").toList)
  else if k == ("headquarters_location").toList then some (("headquarters_location").toList)
  else if k == ("manufacturing_locations").toList then some (("manufacturing_locations").toList)
  else if k == ("email_address").toList then some (("email_address").toList)
  else if k == ("url").toList then some (("url").toList)
  else if k == ("amazon_url").toList then some (("amazon_url").toList)
  else none

/-- The back-compat block of run: a numeric legacy limit backfills a
missing maxImports; a truthy queryType/query pair is routed into the
search object through the name table. When body.search is already a
truthy primitive and a mapped key exists, the strict-mode property
write on a primitive raises the TypeError modelled by `error` (the
outer catch then answers 500); writes onto a truthy array are silently
kept as expando properties, which the schema step cannot see. -/
def backCompat (body : JsVal) : Except Unit JsVal :=
  let b1 :=
    match jget body (("limit").toList), jget body (("maxImports").toList) with
    | some (.num q), none => jset body (("maxImports").toList) (.num q)
    | _, _ => body
  if truthyOpt (jget b1 (("queryType").toList)) ∧ truthyOpt (jget b1 (("query").toList)) then
    let sVal := orJ (jget b1 (("search").toList)) (.obj [])
    let b2 := jset b1 (("search").toList) sVal
    match queryTypeMap ((jsToStr (orJ (jget b1 (("queryType").toList)) .null)).map lowerChar) with
    | some key =>
      match sVal with
      | .obj _ =>
          .ok (jset b2 (("search").toList)
            (jset sVal key (orJ (jget b1 (("query").toList)) .null)))
      | .arr _ => .ok b2
      | _ => .error ()
    | none => .ok b2
  else .ok b1

/-- JavaScript Number(string), restricted to optionally signed decimal
literals after trimming; the empty string converts to 0 and anything
else outside the fragment (hex, exponents, Infinity) to NaN (`none`).
The handler only reads XAI_TIMEOUT_MS through this. -/
def strToNum (s : Str) : Option ℚ :=
  let t := jsTrim s
  if t.isEmpty then some 0
  else
    let (neg, r) : Bool × Str :=
      match t with
      | '-' :: r => (true, r)
      | '+' :: r => (false, r)
      | _ => (false, t)
    let ip := r.takeWhile isDigit
    match r.drop ip.length with
    | [] =>
        if ip.isEmpty then none
        else some (if neg then -(digitsToNat ip : ℚ) else (digitsToNat ip : ℚ))
    | '.' :: fr =>
        let fd := fr.takeWhile isDigit
        if (fr.drop fd.length).isEmpty ∧ ¬(ip.isEmpty ∧ fd.isEmpty) then
          let v : ℚ := (digitsToNat (ip ++ fd) : ℚ) * (10 : ℚ) ^ (-(fd.length : ℤ))
          some (if neg then -v else v)
        else none
    | _ => none

structure RunEnv where
  stub : Bool
  xaiTimeoutEnv : Option Str

structure RunReq where
  method : Str
  body : Option JsVal

/-- The arguments run passes to callXAI when it reaches the live path. -/
structure CallArgs where
  search : JsVal
  maxImports : ℚ
  timeoutMs : ℚ

structure RunOut where
  status : Nat
  call : Option CallArgs

/-- The timeout derivation of run: the preferred caller value is
timeout_ms nullish-coalesced with timeoutMs, falling back to
Number(XAI_TIMEOUT_MS ?? 600000), all clamped. -/
def deriveTimeout (env : RunEnv) (p : ParsedReq) : ℚ :=
  let preferred : Option ℚ :=
    match p.timeout_ms with
    | some q => some q
    | none => p.timeoutMs
  let envDefault : Option ℚ :=
    match env.xaiTimeoutEnv with
    | some s => strToNum s
    | none => some 600000
  clampTimeout
    (match preferred with
     | some q => some q
     | none => envDefault)

/-- The tail of run after successful validation: the stub path answers
without any outbound call, the live path invokes callXAI with
search = parsed.search || an empty object, the parsed maxImports, and
the derived timeout. -/
def runParsed (env : RunEnv) (p : ParsedReq) : RunOut :=
  if env.stub then ⟨200, none⟩
  else ⟨200, some ⟨orJ p.search (.obj []), p.maxImports, deriveTimeout env p⟩⟩

/-- The body-processing tail of run: back-compat mapping (a thrown
TypeError there reaches the outer catch, answering 500), then schema
validation (failure answers 400 before any outbound call). -/
def runBody (env : RunEnv) (body : JsVal) : RunOut :=
  match backCompat body with
  | .error _ => ⟨500, none⟩
  | .ok b =>
    match requestSchemaParse b with
    | .error _ => ⟨400, none⟩
    | .ok p => runParsed env p

/-- The HTTP handler run(context, req), up to the callXAI invocation.
The result records the response status and, when the live path is
reached, the arguments handed to callXAI; the completion calls, the
geocoding calls and the Cosmos upserts all happen inside callXAI, so
`call = none` means none of them occurred. Headers, response bodies,
session-id extraction and the final zod validation of the 200 path are
not modelled. -/
def run (env : RunEnv) (req : RunReq) : RunOut :=
  if req.method == ("OPTIONS").toList then ⟨204, none⟩
  else if !(req.method == ("POST").toList) then ⟨405, none⟩
  else
    runBody env
      (match req.body with
       | some v => if truthy v then v else .obj []
       | none => .obj [])

/-! ## Shared lemmas -/

theorem geocodeLocation_error (key : Option Str) (location : JsVal) :
    geocodeLocation key location (.error ()) = (0, 0) := by
  unfold geocodeLocation
  split <;> rfl

theorem clampTimeout_bounds (ms : Option ℚ) :
    10000 ≤ clampTimeout ms ∧ clampTimeout ms ≤ 3600000 := by
  rcases ms with _ | q
  · constructor <;> norm_num [clampTimeout]
  · unfold clampTimeout
    exact ⟨le_min (by norm_num) (le_max_left _ _), min_le_left _ _⟩

theorem run_call_timeout (env : RunEnv) (req : RunReq) (st : Nat) (args : CallArgs)
    (h : run env req = ⟨st, some args⟩) : ∃ ms, args.timeoutMs = clampTimeout ms := by
  unfold run at h
  split at h
  · simp at h
  split at h
  · simp at h
  unfold runBody at h
  split at h
  · simp at h
  split at h
  · simp at h
  unfold runParsed at h
  split at h
  · simp at h
  · cases h
    exact ⟨_, rfl⟩

/-! ## C5 -/

/-- C5: the geocoding enricher returns a coordinate pair and collapses
every listed failure shape — missing credential, empty location string,
a throwing lookup call, and a provider response with no matching
result — to (0, 0). It is a total function of its inputs, so no
exception propagates to its caller. -/
theorem c5_geocode_failure_contract (key : Option Str) (location : JsVal)
    (lookup : Except Unit (Option (ℚ × ℚ))) :
    geocodeLocation none location lookup = (0, 0) ∧
    geocodeLocation key (.str []) lookup = (0, 0) ∧
    geocodeLocation key location (.error ()) = (0, 0) ∧
    geocodeLocation key location (.ok none) = (0, 0) := by
  refine ⟨rfl, ?_, geocodeLocation_error key location, ?_⟩
  · unfold geocodeLocation
    rcases key with _ | s <;> simp [truthyOpt, truthy]
  · unfold geocodeLocation
    split <;> rfl

/-! ## C6 -/

/-- C6 counterexample: a POST with an empty body and no XAI_TIMEOUT_MS
override reaches callXAI with a timeout of 600000 ms (10 minutes), not
the claimed 5-minute default; 300000 ms is only clampTimeout's fallback
for a non-finite input. -/
theorem c6_counterexample :
    run ⟨false, none⟩ ⟨("POST").toList, some (.obj [])⟩ =
      ⟨200, some ⟨.obj [], 1, 600000⟩⟩ ∧ (600000 : ℚ) ≠ 300000 :=
  ⟨rfl, by decide⟩

/-- C6 amended: every timeout handed to callXAI is clamped into
[10000 ms, 3600000 ms]; when the caller supplies no timeout the default
is clampTimeout of Number(XAI_TIMEOUT_MS ?? 600000) — 600000 ms (10
minutes) when the variable is unset, and 300000 ms (5 minutes) only as
the NaN fallback, e.g. when the variable holds a non-numeric string. -/
theorem c6_amended :
    (∀ env req st args, run env req = ⟨st, some args⟩ →
      10000 ≤ args.timeoutMs ∧ args.timeoutMs ≤ 3600000) ∧
    run ⟨false, none⟩ ⟨("POST").toList, some (.obj [])⟩ =
      ⟨200, some ⟨.obj [], 1, 600000⟩⟩ ∧
    run ⟨false, some (("x").toList)⟩ ⟨("POST").toList, some (.obj [])⟩ =
      ⟨200, some ⟨.obj [], 1, 300000⟩⟩ := by
  refine ⟨?_, rfl, rfl⟩
  intro env req st args h
  obtain ⟨ms, hms⟩ := run_call_timeout env req st args h
  rw [hms]
  exact clampTimeout_bounds ms

/-- Witness for c6_amended at a concrete request. -/
theorem c6_amended_witness :
    10000 ≤ (600000 : ℚ) ∧ (600000 : ℚ) ≤ 3600000 :=
  c6_amended.1 ⟨false, none⟩ ⟨("POST").toList, some (.obj [])⟩ 200
    ⟨.obj [], 1, 600000⟩ rfl

/-! ## C2 -/

theorem map_pair_zero {α : Type} (l : List α) (f : α → ℚ × ℚ) (hf : ∀ a, f a = (0, 0)) :
    (l.map f).map (fun g => g.1) = List.replicate l.length 0 ∧
    (l.map f).map (fun g => g.2) = List.replicate l.length 0 := by
  induction l with
  | nil => exact ⟨rfl, rfl⟩
  | cons a t ih => simp [hf a, List.replicate_succ, ih.1, ih.2]

/-- C2: every document the normalizer produces carries manu_lats,
manu_lngs and manufacturing_locations of equal length (one geocoded
pair is pushed per manufacturing entry), and when every geocoding
lookup fails the coordinate lists consist entirely of zeros. -/
theorem c2_parallel_geo_arrays (env : PipeEnv) (c : JsVal) (ctr : Nat) (d : Doc)
    (h : normalizeCompany env c ctr = some d) :
    d.manu_lats.length = d.manufacturing_locations.length ∧
    d.manu_lngs.length = d.manufacturing_locations.length ∧
    (env.geo = (fun _ => .error ()) →
      d.manu_lats = List.replicate d.manufacturing_locations.length 0 ∧
      d.manu_lngs = List.replicate d.manufacturing_locations.length 0) := by
  simp only [normalizeCompany] at h
  rcases htag : taglineOf c with e | tg <;> rw [htag] at h
  · exact absurd h (by simp)
  · simp only [Option.some.injEq] at h
    cases h
    refine ⟨by simp, by simp, ?_⟩
    intro hg
    have hz : ∀ loc : JsVal,
        geocodeLocation env.geoKey loc (env.geo loc) = (0, 0) := by
      intro loc
      rw [hg]
      exact geocodeLocation_error env.geoKey loc
    have hmz := map_pair_zero (manuListOf c)
      (fun loc => geocodeLocation env.geoKey loc (env.geo loc)) hz
    simpa using hmz

/-! ## C8 -/

/-- C8: normalizing the same raw fragment twice against the same
environment (in particular the same deterministic geocoding oracle)
produces field-for-field identical documents apart from the freshly
drawn id and created_at, which are the only fields read off the
counter position. -/
theorem c8_normalize_idempotent (env : PipeEnv) (c : JsVal) (k1 k2 : Nat) :
    (normalizeCompany env c k1).map docCore = (normalizeCompany env c k2).map docCore := by
  simp only [normalizeCompany]
  rcases htag : taglineOf c with e | tg <;> simp [htag, docCore]

def emptyDoc : Doc :=
  ⟨.null, .null, [], [], [], [], .null, [], .null, false, 0, 0, 0, 0, [], [], [], [],
   ⟨none, none⟩, [], none, [], []⟩

def c2Frag : JsVal :=
  .obj [((("company_name").toList), .str (("Acme").toList)),
        ((("manufacturing_locations").toList), .arr [.str (("Paris").toList)])]

def c2Env : PipeEnv :=
  ⟨none, fun _ => .error (), fun _ => [], fun _ => [], none, fun _ => none⟩

def c2Doc : Doc := (normalizeCompany c2Env c2Frag 0).getD emptyDoc

/-- Witness for c2_parallel_geo_arrays at a concrete fragment with one
manufacturing location and an all-failing geocoder. -/
theorem c2_parallel_geo_arrays_witness :
    c2Doc.manu_lats.length = c2Doc.manufacturing_locations.length ∧
    c2Doc.manu_lngs.length = c2Doc.manufacturing_locations.length ∧
    (c2Env.geo = (fun _ => .error ()) →
      c2Doc.manu_lats = List.replicate c2Doc.manufacturing_locations.length 0 ∧
      c2Doc.manu_lngs = List.replicate c2Doc.manufacturing_locations.length 0) :=
  c2_parallel_geo_arrays c2Env c2Frag 0 c2Doc rfl

/-! ## C7 / C10 machinery -/

theorem filter_map_set_ne (o : List (Str × JsVal)) (k k2 : Str) (x : JsVal)
    (hne : k ≠ k2) :
    (o.map (fun p => if p.1 == k then (p.1, x) else p)).filter (fun p => p.1 == k2) =
      o.filter (fun p => p.1 == k2) := by
  induction o with
  | nil => rfl
  | cons p t ih =>
    by_cases hk : p.1 = k <;> by_cases hk2 : p.1 = k2 <;>
      simp_all [List.map_cons, List.filter_cons]

theorem jget_jset_ne (v : JsVal) (k k2 : Str) (x : JsVal) (hne : k ≠ k2) :
    jget (jset v k x) k2 = jget v k2 := by
  cases v with
  | obj o =>
    show jget (jset (.obj o) k x) k2 = _
    simp only [jset]
    by_cases hany : (o.any fun p => p.1 == k) = true
    · rw [if_pos hany]
      simp only [jget]
      rw [filter_map_set_ne o k k2 x hne]
    · rw [if_neg hany]
      simp only [jget]
      rw [List.filter_append]
      have hx : ([(k, x)] : List (Str × JsVal)).filter (fun p => p.1 == k2) = [] := by
        have h2 : (k == k2) = false := by
          simp
          exact hne
        simp [List.filter_cons, h2]
      rw [hx, List.append_nil]
  | null => rfl
  | bool b => rfl
  | num q => rfl
  | str s => rfl
  | arr l => rfl

theorem backCompat_preserves_maxImports (body : JsVal) (b : JsVal)
    (hb : backCompat body = .ok b)
    (hlim : jget body (("limit").toList) = none ∨
            jget body (("maxImports").toList) ≠ none) :
    jget b (("maxImports").toList) = jget body (("maxImports").toList) := by
  have hne : (("search").toList) ≠ (("maxImports").toList) := by decide
  unfold backCompat at hb
  have hb1 : (match jget body (("limit").toList), jget body (("maxImports").toList) with
      | some (.num q), none => jset body (("maxImports").toList) (.num q)
      | _, _ => body) = body := by
    rcases hl : jget body (("limit").toList) with _ | lv
    · simp
    · rcases hm : jget body (("maxImports").toList) with _ | mv
      · rcases hlim with h | h
        · rw [hl] at h; cases h
        · rw [hm] at h; cases h rfl
      · rcases lv <;> simp
  rw [hb1] at hb
  dsimp only [] at hb
  split at hb
  · split at hb
    · split at hb
      · cases hb
        rw [jget_jset_ne _ _ _ _ hne, jget_jset_ne _ _ _ _ hne]
      · cases hb
        rw [jget_jset_ne _ _ _ _ hne]
      · cases hb
    · cases hb
      rw [jget_jset_ne _ _ _ _ hne]
  · cases hb
    rfl

theorem reqMaxImports_ok (b : JsVal) (mi : ℚ) (h : reqMaxImports b = .ok mi) :
    jget b (("maxImports").toList) = some (.num mi) ∨
      (jget b (("maxImports").toList) = none ∧ mi = 1) := by
  unfold reqMaxImports at h
  split at h
  next heq =>
    cases h
    exact Or.inr ⟨heq, rfl⟩
  next q heq =>
    split at h
    · cases h
      exact Or.inl heq
    · cases h
  next v heq hnum =>
    cases h

theorem requestSchemaParse_bad_maxImports (b : JsVal) (q : ℚ)
    (hq : jget b (("maxImports").toList) = some (.num q))
    (hbad : ¬(q.den = 1 ∧ 1 ≤ q ∧ q ≤ 50)) :
    requestSchemaParse b = .error () := by
  rcases b with _ | _ | _ | _ | l | o <;> try rfl
  have hmi : reqMaxImports (.obj o) = .error () := by
    unfold reqMaxImports
    rw [hq]
    exact if_neg hbad
  simp only [requestSchemaParse, hmi]

theorem requestSchemaParse_maxImports_val (b : JsVal) (p : ParsedReq)
    (h : requestSchemaParse b = .ok p) :
    jget b (("maxImports").toList) = some (.num p.maxImports) ∨
      (jget b (("maxImports").toList) = none ∧ p.maxImports = 1) := by
  rcases b with _ | _ | _ | _ | l | o <;> try cases h
  simp only [requestSchemaParse] at h
  split at h
  · cases h
  case h_2 mi hmi =>
    split at h
    · cases h
    split at h
    · cases h
    split at h
    · cases h
    case h_2 sv hsv =>
      cases h
      exact reqMaxImports_ok _ _ hmi

/-! ## C7 -/

/-- C7 counterexample: a body carrying only the legacy numeric limit
field has no maxImports, yet the handler reaches callXAI with
maxImports 5, not the claimed default 1 (the back-compat block
backfills it from limit before validation). -/
theorem c7_counterexample :
    jget (.obj [((("limit").toList), .num 5)]) (("maxImports").toList) = none ∧
    run ⟨false, none⟩ ⟨("POST").toList, some (.obj [((("limit").toList), .num 5)])⟩ =
      ⟨200, some ⟨.obj [], 5, 600000⟩⟩ ∧ (5 : ℚ) ≠ 1 :=
  ⟨rfl, rfl, by decide⟩

/-- C7 amended: a POST body whose maxImports is a number outside the
integer range [1, 50] (in particular 0) is answered 400 with no
callXAI invocation, hence no model, geocoding or persistence call,
provided the legacy queryType/query mapping does not itself throw; and
an absent maxImports defaults to 1 provided the legacy numeric limit
alias, which would backfill it, is also absent. -/
theorem c7_amended :
    (∀ (env : RunEnv) (o : List (Str × JsVal)) (q : ℚ),
      jget (.obj o) (("maxImports").toList) = some (.num q) →
      ¬(q.den = 1 ∧ 1 ≤ q ∧ q ≤ 50) →
      ∀ b, backCompat (.obj o) = .ok b →
      run env ⟨("POST").toList, some (.obj o)⟩ = ⟨400, none⟩) ∧
    (∀ (o : List (Str × JsVal)) (b : JsVal) (p : ParsedReq),
      backCompat (.obj o) = .ok b →
      requestSchemaParse b = .ok p →
      jget (.obj o) (("maxImports").toList) = none →
      jget (.obj o) (("limit").toList) = none →
      p.maxImports = 1) := by
  constructor
  · intro env o q hq hbad b hb
    have hbm : jget b (("maxImports").toList) = some (.num q) := by
      rw [backCompat_preserves_maxImports (.obj o) b hb (Or.inr (by rw [hq]; simp))]
      exact hq
    have hparse := requestSchemaParse_bad_maxImports b q hbm hbad
    show run _ _ = _
    simp only [run]
    rw [if_neg (by decide), if_neg (by decide)]
    show runBody env (.obj o) = _
    simp only [runBody, hb, hparse]
  · intro o b p hb hp hm hl
    have hbm : jget b (("maxImports").toList) = none := by
      rw [backCompat_preserves_maxImports (.obj o) b hb (Or.inl hl)]
      exact hm
    rcases requestSchemaParse_maxImports_val b p hp with h | h
    · rw [hbm] at h
      cases h
    · exact h.2

/-- Witness for c7_amended: the scenario body with maxImports 0 is
answered 400 with no outbound call, and an empty body parses with
maxImports 1. -/
theorem c7_amended_witness :
    run ⟨false, none⟩ ⟨("POST").toList, some (.obj [((("maxImports").toList), .num 0)])⟩ =
      ⟨400, none⟩ ∧ (⟨1, none, none, none⟩ : ParsedReq).maxImports = 1 :=
  ⟨c7_amended.1 ⟨false, none⟩ [((("maxImports").toList), .num 0)] 0 rfl (by decide)
      (.obj [((("maxImports").toList), .num 0)]) rfl,
   c7_amended.2 [] (.obj []) ⟨1, none, none, none⟩ rfl rfl rfl rfl⟩

/-! ## C10 -/

def schemaTopKeys : List Str :=
  [("maxImports").toList, ("timeout_ms").toList, ("timeoutMs").toList, ("search").toList]

theorem jget_append_none (o extra : List (Str × JsVal)) (k : Str)
    (hk : ∀ p ∈ extra, ¬ p.1 = k) :
    jget (.obj (o ++ extra)) k = jget (.obj o) k := by
  simp only [jget]
  rw [List.filter_append]
  have hx : extra.filter (fun p => p.1 == k) = [] := by
    rw [List.filter_eq_nil_iff]
    intro p hp
    simpa using hk p hp
  rw [hx, List.append_nil]

/-- C10: request validation tolerates unknown body fields — the chain
.strict().passthrough() ends in passthrough mode, so appending extra
fields whose keys are none of the four schema keys leaves the parse
outcome unchanged, and a body made only of such fields parses
successfully with every default. -/
theorem c10_unknown_fields_tolerated :
    (∀ (o extra : List (Str × JsVal)),
      (∀ p ∈ extra, ¬ p.1 ∈ schemaTopKeys) →
      requestSchemaParse (.obj (o ++ extra)) = requestSchemaParse (.obj o)) ∧
    (∀ extra : List (Str × JsVal),
      (∀ p ∈ extra, ¬ p.1 ∈ schemaTopKeys) →
      requestSchemaParse (.obj extra) = .ok ⟨1, none, none, none⟩) := by
  have key_of : ∀ (extra : List (Str × JsVal)) (k : Str),
      k ∈ schemaTopKeys → (∀ p ∈ extra, ¬ p.1 ∈ schemaTopKeys) →
      ∀ p ∈ extra, ¬ p.1 = k := by
    intro extra k hkmem hext p hp heq
    exact hext p hp (heq ▸ hkmem)
  have main : ∀ (o extra : List (Str × JsVal)),
      (∀ p ∈ extra, ¬ p.1 ∈ schemaTopKeys) →
      requestSchemaParse (.obj (o ++ extra)) = requestSchemaParse (.obj o) := by
    intro o extra hext
    have h1 := jget_append_none o extra (("maxImports").toList)
      (key_of extra _ (by simp [schemaTopKeys]) hext)
    have h2 := jget_append_none o extra (("timeout_ms").toList)
      (key_of extra _ (by simp [schemaTopKeys]) hext)
    have h3 := jget_append_none o extra (("timeoutMs").toList)
      (key_of extra _ (by simp [schemaTopKeys]) hext)
    have h4 := jget_append_none o extra (("search").toList)
      (key_of extra _ (by simp [schemaTopKeys]) hext)
    simp only [requestSchemaParse, reqMaxImports, reqTimeoutField, reqSearchField,
      h1, h2, h3, h4]
  refine ⟨main, ?_⟩
  intro extra hext
  have h := main [] extra hext
  simpa using h

/-- Witness for c10_unknown_fields_tolerated at a concrete body with an
undocumented extra field. -/
theorem c10_unknown_fields_witness :
    requestSchemaParse (.obj ([((("maxImports").toList), .num 2)] ++
        [((("foo").toList), .bool true)])) =
      requestSchemaParse (.obj [((("maxImports").toList), .num 2)]) ∧
    requestSchemaParse (.obj [((("foo").toList), .bool true)]) =
      .ok ⟨1, none, none, none⟩ :=
  ⟨c10_unknown_fields_tolerated.1 [((("maxImports").toList), .num 2)]
      [((("foo").toList), .bool true)] (by decide),
   c10_unknown_fields_tolerated.2 [((("foo").toList), .bool true)] (by decide)⟩

/-! ## C4 / C9 machinery: URLSearchParams round trips -/

/-- Well-formedness of one query pair: the key holds no separator and no
equals sign, the value no separator (the pipeline only writes such
pairs). -/
def pairOk (pr : Str × Str) : Bool :=
  pr.1.all (fun c => !(c = '&') && !(c = '=')) && pr.2.all (fun c => !(c = '&'))

theorem splitOnPred_ne_nil (p : Char → Bool) (l : Str) : splitOnPred p l ≠ [] := by
  cases l with
  | nil => simp [splitOnPred]
  | cons x rest =>
    simp only [splitOnPred]
    split
    · simp
    · split <;> simp

theorem splitOnPred_sep_free (p : Char → Bool) (l : Str) :
    ∀ seg ∈ splitOnPred p l, seg.all (fun c => !(p c)) = true := by
  induction l with
  | nil =>
    intro seg h
    simp [splitOnPred] at h
    subst h
    rfl
  | cons x rest ih =>
    intro seg h
    simp only [splitOnPred] at h
    by_cases hx : p x = true
    · rw [if_pos hx] at h
      rcases List.mem_cons.mp h with h | h
      · subst h; rfl
      · exact ih seg h
    · rw [if_neg hx] at h
      rcases hrest : splitOnPred p rest with _ | ⟨s0, segs⟩
      · exact absurd hrest (splitOnPred_ne_nil p rest)
      · rw [hrest] at h
        rcases List.mem_cons.mp h with h | h
        · subst h
          have hs0 := ih s0 (by rw [hrest]; exact List.mem_cons_self _ _)
          simp [List.all_cons, hx, hs0]
        · exact ih seg (by rw [hrest]; exact List.mem_cons_of_mem _ h)

theorem splitOnPred_no_sep (p : Char → Bool) (l : Str)
    (h : l.all (fun c => !(p c)) = true) : splitOnPred p l = [l] := by
  induction l with
  | nil => rfl
  | cons x rest ih =>
    simp only [List.all_cons, Bool.and_eq_true, Bool.not_eq_true'] at h
    simp only [splitOnPred, h.1]
    rw [if_neg (by simp [h.1])]
    rw [ih (by simp [List.all_eq_true]; intro c hc; have := h.2; simp [List.all_eq_true] at this; simpa using this c hc)]

theorem splitOnPred_append_sep (p : Char → Bool) (a b : Str) (s : Char)
    (hs : p s = true) (ha : a.all (fun c => !(p c)) = true) :
    splitOnPred p (a ++ s :: b) = a :: splitOnPred p b := by
  induction a with
  | nil =>
    simp only [List.nil_append, splitOnPred]
    rw [if_pos hs]
  | cons x t ih =>
    simp only [List.all_cons, Bool.and_eq_true, Bool.not_eq_true'] at ha
    simp only [List.cons_append, splitOnPred]
    rw [if_neg (by simp [ha.1])]
    simp only [List.append_eq]
    rw [ih (by simp [List.all_eq_true]; intro c hc; have := ha.2; simp [List.all_eq_true] at this; simpa using this c hc)]

theorem splitFirstChar_append (c : Char) (a b : Str)
    (ha : a.all (fun x => !(x = c)) = true) :
    splitFirstChar c (a ++ c :: b) = some (a, b) := by
  induction a with
  | nil => simp [splitFirstChar]
  | cons x t ih =>
    simp only [List.all_cons, Bool.and_eq_true, Bool.not_eq_true'] at ha
    simp only [List.cons_append, splitFirstChar]
    rw [if_neg (by simpa using ha.1)]
    simp only [List.append_eq]
    rw [ih (by simp [List.all_eq_true]; intro d hd; have := ha.2; simp [List.all_eq_true] at this; simpa using this d hd)]
    rfl

theorem splitFirstChar_some (c : Char) (l a b : Str)
    (h : splitFirstChar c l = some (a, b)) :
    l = a ++ c :: b ∧ a.all (fun x => !(x = c)) = true := by
  induction l generalizing a with
  | nil => cases h
  | cons x t ih =>
    simp only [splitFirstChar] at h
    by_cases hx : x = c
    · rw [if_pos hx] at h
      cases h
      subst hx
      exact ⟨rfl, rfl⟩
    · rw [if_neg hx] at h
      rcases hsp : splitFirstChar c t with _ | pr
      · rw [hsp] at h; cases h
      · rw [hsp] at h
        cases h
        obtain ⟨h1, h2⟩ := ih pr.1 hsp
        constructor
        · rw [List.cons_append, ← h1]
        · simp [List.all_cons, hx, h2]

theorem splitFirstChar_none (c : Char) (l : Str)
    (h : splitFirstChar c l = none) : l.all (fun x => !(x = c)) = true := by
  induction l with
  | nil => rfl
  | cons x t ih =>
    simp only [splitFirstChar] at h
    by_cases hx : x = c
    · rw [if_pos hx] at h; cases h
    · rw [if_neg hx] at h
      have ht : splitFirstChar c t = none := by
        rcases hsp : splitFirstChar c t with _ | pr
        · rfl
        · rw [hsp] at h; cases h
      simp [List.all_cons, hx, ih ht]

theorem pairOk_parts (pr : Str × Str) (h : pairOk pr = true) :
    pr.1.all (fun c => !(c = '&')) = true ∧ pr.1.all (fun c => !(c = '=')) = true ∧
    pr.2.all (fun c => !(c = '&')) = true := by
  unfold pairOk at h
  simp only [Bool.and_eq_true, List.all_eq_true] at h
  refine ⟨?_, ?_, ?_⟩ <;> simp only [List.all_eq_true]
  · intro c hc; exact (by simpa using (h.1 c hc).1)
  · intro c hc; exact (by simpa using (h.1 c hc).2)
  · intro c hc; exact h.2 c hc

theorem queryPairs_serializeQuery (ps : List (Str × Str))
    (h : ∀ pr ∈ ps, pairOk pr = true) :
    queryPairs (serializeQuery ps) = ps := by
  induction ps with
  | nil => rfl
  | cons x rest ih =>
    obtain ⟨hx1, hx2, hx3⟩ := pairOk_parts x (h x (List.mem_cons_self _ _))
    have hseg : (x.1 ++ '=' :: x.2).all (fun c => !(c = '&')) = true := by
      simp only [List.all_append, List.all_cons, Bool.and_eq_true]
      exact ⟨hx1, by simp, hx3⟩
    cases rest with
    | nil =>
      show queryPairs (x.1 ++ '=' :: x.2) = [x]
      unfold queryPairs
      rw [splitOnPred_no_sep _ _ (by simpa using hseg)]
      have hne : (x.1 ++ '=' :: x.2).isEmpty = false := by
        cases x1 : x.1 <;> simp [x1]
      rw [List.filter_cons]
      simp only [hne, Bool.not_false, if_true, List.filter_nil, List.map_cons, List.map_nil]
      rw [splitFirstChar_append _ _ _ hx2]
    | cons y t =>
      have hser : serializeQuery (x :: y :: t) =
          (x.1 ++ '=' :: x.2) ++ '&' :: serializeQuery (y :: t) := by
        simp [serializeQuery, joinSep, List.append_assoc]
      rw [hser]
      unfold queryPairs
      rw [splitOnPred_append_sep _ _ _ '&' (by simp) (by simpa using hseg)]
      have hne : (x.1 ++ '=' :: x.2).isEmpty = false := by
        cases x1 : x.1 <;> simp [x1]
      rw [List.filter_cons]
      simp only [hne, Bool.not_false, if_true, List.map_cons]
      rw [splitFirstChar_append _ _ _ hx2]
      have iha := ih (fun pr hpr => h pr (List.mem_cons_of_mem _ hpr))
      unfold queryPairs at iha
      rw [iha]

theorem queryPairs_ok (q : Str) : ∀ pr ∈ queryPairs q, pairOk pr = true := by
  intro pr hpr
  unfold queryPairs at hpr
  obtain ⟨seg, hseg, hpr⟩ := List.mem_map.mp hpr
  obtain ⟨hsegsp, _⟩ := List.mem_filter.mp hseg
  have hamp : seg.all (fun c => !(c = '&')) = true := by
    have := splitOnPred_sep_free (· = '&') q seg hsegsp
    simpa using this
  simp only [List.all_eq_true] at hamp
  rcases hsp : splitFirstChar '=' seg with _ | pr2
  · rw [hsp] at hpr
    cases hpr
    have heq := splitFirstChar_none '=' seg hsp
    simp only [List.all_eq_true] at heq
    unfold pairOk
    simp only [Bool.and_eq_true, List.all_eq_true]
    exact ⟨fun c hc => by simp [by simpa using hamp c hc, by simpa using heq c hc], by simp⟩
  · rw [hsp] at hpr
    cases hpr
    obtain ⟨hdec, hall⟩ := splitFirstChar_some '=' seg pr2.1 pr2.2 hsp
    simp only [List.all_eq_true] at hall
    unfold pairOk
    simp only [Bool.and_eq_true, List.all_eq_true]
    constructor
    · intro c hc
      have hc1 : c ∈ seg := by
        rw [hdec]
        exact List.mem_append.mpr (Or.inl hc)
      simp [by simpa using hamp c hc1, by simpa using hall c hc]
    · intro c hc
      have hc2 : c ∈ seg := by
        rw [hdec]
        exact List.mem_append.mpr (Or.inr (List.mem_cons_of_mem _ hc))
      simpa using hamp c hc2

theorem setParamGo_find (k v : Str) (ps : List (Str × Str))
    (hany : (ps.any fun p => p.1 == k) = true) :
    (setParamGo k v ps).find? (fun p => p.1 == k) = some (k, v) := by
  induction ps with
  | nil => simp at hany
  | cons p t ih =>
    by_cases hp : (p.1 == k) = true
    · simp only [setParamGo, hp, if_true]
      simp [List.find?]
    · simp only [setParamGo, hp, if_false, Bool.false_eq_true]
      have hany2 : (t.any fun p => p.1 == k) = true := by
        simp only [List.any_cons, Bool.or_eq_true] at hany
        rcases hany with h | h
        · exact absurd h hp
        · exact h
      rw [List.find?_cons_of_neg _ (by simp [hp])]
      exact ih hany2

theorem find?_append_right {α : Type} (p : α → Bool) (l1 l2 : List α)
    (h : ∀ x ∈ l1, p x = false) :
    (l1 ++ l2).find? p = l2.find? p := by
  induction l1 with
  | nil => rfl
  | cons x t ih =>
    rw [List.cons_append, List.find?_cons_of_neg _ (by simp [h x (List.mem_cons_self _ _)])]
    exact ih (fun y hy => h y (List.mem_cons_of_mem _ hy))

theorem setParam_find (ps : List (Str × Str)) (k v : Str) :
    (setParam ps k v).find? (fun p => p.1 == k) = some (k, v) := by
  unfold setParam
  by_cases hany : (ps.any fun p => p.1 == k) = true
  · rw [if_pos hany]
    exact setParamGo_find k v ps hany
  · rw [if_neg hany]
    rw [find?_append_right _ ps _ (by
      intro x hx
      by_contra hc
      exact hany (List.any_eq_true.mpr ⟨x, hx, by simpa using hc⟩))]
    simp [List.find?]

theorem setParamGo_mem (k v : Str) (ps : List (Str × Str)) (x : Str × Str)
    (hx : x ∈ setParamGo k v ps) : x ∈ ps ∨ x = (k, v) := by
  induction ps with
  | nil => cases hx
  | cons p t ih =>
    simp only [setParamGo] at hx
    by_cases hp : (p.1 == k) = true
    · rw [if_pos hp] at hx
      rcases List.mem_cons.mp hx with h | h
      · exact Or.inr h
      · exact Or.inl (List.mem_cons_of_mem _ (List.mem_filter.mp h).1)
    · rw [if_neg hp] at hx
      rcases List.mem_cons.mp hx with h | h
      · exact Or.inl (h ▸ List.mem_cons_self _ _)
      · rcases ih h with h2 | h2
        · exact Or.inl (List.mem_cons_of_mem _ h2)
        · exact Or.inr h2

theorem setParam_mem (ps : List (Str × Str)) (k v : Str) (x : Str × Str)
    (hx : x ∈ setParam ps k v) : x ∈ ps ∨ x = (k, v) := by
  unfold setParam at hx
  split at hx
  · exact setParamGo_mem k v ps x hx
  · rcases List.mem_append.mp hx with h | h
    · exact Or.inl h
    · simp at h
      exact Or.inr h

/-- URLSearchParams.set followed by get on the written key returns the
written value. -/
theorem getParam_urlSetParam (u : UrlRec) (k v : Str) (hkv : pairOk (k, v) = true) :
    getParam (urlSetParam u k v).query k = some v := by
  unfold urlSetParam getParam
  simp only [Option.getD_some]
  rw [queryPairs_serializeQuery _ (by
    intro pr hpr
    rcases setParam_mem _ _ _ _ hpr with h | h
    · exact queryPairs_ok _ pr h
    · rw [h]; exact hkv)]
  rw [setParam_find]
  rfl

theorem parseUrl_prefixHttp_nil : parseUrl (prefixHttp ([] : Str)) = none := rfl

theorem ensureAffiliateTag_parsed (s : Str) (u : UrlRec)
    (hp : parseUrl (prefixHttp s) = some u) :
    ensureAffiliateTag (.str s) =
      .str (urlToString (if hasSubStr (("amazon.").toList) u.host
        then urlSetParam u (("tag").toList) (("tabarnam00-20").toList)
        else u)) := by
  have hs : s ≠ [] := by
    intro heq
    subst heq
    rw [parseUrl_prefixHttp_nil] at hp
    cases hp
  have hse : s.isEmpty = false := by
    cases s
    · exact absurd rfl hs
    · rfl
  simp only [ensureAffiliateTag, truthy, hse, Bool.not_false, Bool.not_true,
    Bool.false_eq_true, if_false]
  show (match JsVal.str s with
    | .str s =>
      match parseUrl (prefixHttp s) with
      | none => JsVal.str s
      | some u =>
        JsVal.str (urlToString (if hasSubStr (("amazon.").toList) u.host
          then urlSetParam u (("tag").toList) (("tabarnam00-20").toList) else u))
    | other => other) = _
  simp only [hp]

/-! ## C4 -/

/-- C4 counterexample: the non-amazon URL https://example.com is not
returned unmodified — new URL serialization appends the root path
slash. -/
theorem c4_counterexample :
    ensureAffiliateTag (.str (("https://example.com").toList)) =
      .str (("https://example.com/").toList) ∧
    ("https://example.com/").toList ≠ ("https://example.com").toList ∧
    hasSubStr (("amazon.").toList) (("example.com").toList) = false :=
  ⟨rfl, by decide, rfl⟩

/-- C4 amended: the affiliate tag tabarnam00-20 is set exactly when the
parsed hostname contains "amazon." — an amazon URL gains (or has
overwritten) tag=tabarnam00-20; a non-amazon parseable URL has no tag
set and is returned as the re-serialization of its parse, which may
differ textually from the input (for instance by a trailing slash); an
unparseable input is returned unchanged. -/
theorem c4_amended :
    (∀ (s : Str) (u : UrlRec), parseUrl (prefixHttp s) = some u →
      hasSubStr (("amazon.").toList) u.host = true →
      ensureAffiliateTag (.str s) =
        .str (urlToString (urlSetParam u (("tag").toList) (("tabarnam00-20").toList))) ∧
      getParam (urlSetParam u (("tag").toList) (("tabarnam00-20").toList)).query
        (("tag").toList) = some (("tabarnam00-20").toList)) ∧
    (∀ (s : Str) (u : UrlRec), parseUrl (prefixHttp s) = some u →
      hasSubStr (("amazon.").toList) u.host = false →
      ensureAffiliateTag (.str s) = .str (urlToString u)) ∧
    (∀ s : Str, s ≠ [] → parseUrl (prefixHttp s) = none →
      ensureAffiliateTag (.str s) = .str s) := by
  refine ⟨?_, ?_, ?_⟩
  · intro s u hp ha
    constructor
    · rw [ensureAffiliateTag_parsed s u hp, ha]
      simp
    · exact getParam_urlSetParam u _ _ (by decide)
  · intro s u hp ha
    rw [ensureAffiliateTag_parsed s u hp, ha]
    simp
  · intro s hs hp
    have hse : s.isEmpty = false := by
      cases s
      · exact absurd rfl hs
      · rfl
    simp only [ensureAffiliateTag, truthy, hse, Bool.not_false, Bool.not_true,
      Bool.false_eq_true, if_false]
    show (match JsVal.str s with
      | .str s =>
        match parseUrl (prefixHttp s) with
        | none => JsVal.str s
        | some u =>
          JsVal.str (urlToString (if hasSubStr (("amazon.").toList) u.host
            then urlSetParam u (("tag").toList) (("tabarnam00-20").toList) else u))
      | other => other) = _
    simp only [hp]

/-- Witness for c4_amended: an amazon URL without a tag gains it, a
non-amazon URL is re-serialized without one, an unparseable string is
returned as-is. -/
theorem c4_amended_witness :
    (ensureAffiliateTag (.str (("https://amazon.com/x").toList)) =
      .str (urlToString (urlSetParam
        ⟨("https").toList, ("amazon.com").toList, none, ("/x").toList, none, none⟩
        (("tag").toList) (("tabarnam00-20").toList))) ∧
     getParam (urlSetParam
        ⟨("https").toList, ("amazon.com").toList, none, ("/x").toList, none, none⟩
        (("tag").toList) (("tabarnam00-20").toList)).query (("tag").toList) =
       some (("tabarnam00-20").toList)) ∧
    ensureAffiliateTag (.str (("https://example.com/x").toList)) =
      .str (urlToString
        ⟨("https").toList, ("example.com").toList, none, ("/x").toList, none, none⟩) ∧
    ensureAffiliateTag (.str (("not a url").toList)) = .str (("not a url").toList) :=
  ⟨c4_amended.1 (("https://amazon.com/x").toList)
      ⟨("https").toList, ("amazon.com").toList, none, ("/x").toList, none, none⟩ rfl rfl,
   c4_amended.2.1 (("https://example.com/x").toList)
      ⟨("https").toList, ("example.com").toList, none, ("/x").toList, none, none⟩ rfl rfl,
   c4_amended.2.2 (("not a url").toList) (by decide) rfl⟩

/-! ## C9 -/

/-- C9: an amazon URL that already carries a tag query parameter with
some other value has it overwritten with tabarnam00-20 rather than
preserved. -/
theorem c9_existing_tag_overwritten (s : Str) (u : UrlRec) (old : Str)
    (hp : parseUrl (prefixHttp s) = some u)
    (ha : hasSubStr (("amazon.").toList) u.host = true)
    (_hold : getParam u.query (("tag").toList) = some old)
    (_hne : old ≠ ("tabarnam00-20").toList) :
    ensureAffiliateTag (.str s) =
      .str (urlToString (urlSetParam u (("tag").toList) (("tabarnam00-20").toList))) ∧
    getParam (urlSetParam u (("tag").toList) (("tabarnam00-20").toList)).query
      (("tag").toList) = some (("tabarnam00-20").toList) := by
  constructor
  · rw [ensureAffiliateTag_parsed s u hp, ha]
    simp
  · exact getParam_urlSetParam u _ _ (by decide)

/-- Witness for c9_existing_tag_overwritten at a URL carrying
tag=abc. -/
theorem c9_existing_tag_overwritten_witness :
    ensureAffiliateTag (.str (("https://amazon.com/x?tag=abc").toList)) =
      .str (urlToString (urlSetParam
        ⟨("https").toList, ("amazon.com").toList, none, ("/x").toList,
         some (("tag=abc").toList), none⟩
        (("tag").toList) (("tabarnam00-20").toList))) ∧
    getParam (urlSetParam
        ⟨("https").toList, ("amazon.com").toList, none, ("/x").toList,
         some (("tag=abc").toList), none⟩
        (("tag").toList) (("tabarnam00-20").toList)).query (("tag").toList) =
      some (("tabarnam00-20").toList) :=
  c9_existing_tag_overwritten (("https://amazon.com/x?tag=abc").toList)
    ⟨("https").toList, ("amazon.com").toList, none, ("/x").toList,
     some (("tag=abc").toList), none⟩
    (("abc").toList) rfl rfl rfl (by decide)

/-! ## C1 -/

/-- The clean batch computed for page p when the id counter stands at
ctr; empty when the page request errored or yielded no parsable
nonempty array (those paths add nothing to the accumulator). -/
def cleanAt (env : PipeEnv) (p ctr : Nat) : List Doc :=
  match env.contentOf p with
  | none => []
  | some content =>
    match arrOfContent content with
    | none => []
    | some comps => (normalizePage env comps ctr).1

/-- No two records of the list agree on both company_name and
normalized_domain. -/
def keysDistinct (l : List Doc) : Prop :=
  List.Pairwise (fun a b => keyEq a b = false) l

theorem xaiLoop_distinct (env : PipeEnv) (maxI : Nat)
    (hpage : ∀ p ctr, keysDistinct (cleanAt env p ctr)) :
    ∀ fuel page all ctr, keysDistinct all →
      keysDistinct (xaiLoop env maxI fuel page all ctr) := by
  intro fuel
  induction fuel with
  | zero =>
    intro page all ctr hall
    exact hall
  | succ n ih =>
    intro page all ctr hall
    simp only [xaiLoop]
    split
    · rcases hc : env.contentOf page with _ | content <;> dsimp only
      · exact ih _ _ _ hall
      · rcases ha : arrOfContent content with _ | comps <;> dsimp only
        · exact hall
        · have hclean : keysDistinct (normalizePage env comps ctr).1 := by
            have hh := hpage page ctr
            unfold cleanAt at hh
            rw [hc] at hh
            dsimp only at hh
            rw [ha] at hh
            dsimp only at hh
            exact hh
          have huniq : keysDistinct ((normalizePage env comps ctr).1.filter
              (fun c => !(all.any (fun e => keyEq e c)))) :=
            List.Pairwise.filter _ hclean
          have hcross : ∀ a ∈ all, ∀ b2 ∈ (normalizePage env comps ctr).1.filter
              (fun c => !(all.any (fun e => keyEq e c))), keyEq a b2 = false := by
            intro a hA b2 hB
            have hpred := (List.mem_filter.mp hB).2
            have hfalse : (all.any fun e => keyEq e b2) = false := by
              simpa using hpred
            rw [List.any_eq_false] at hfalse
            simpa using hfalse a hA
          have hall2 : keysDistinct (all ++ (normalizePage env comps ctr).1.filter
              (fun c => !(all.any (fun e => keyEq e c)))) := by
            unfold keysDistinct
            rw [List.pairwise_append]
            exact ⟨hall, huniq, hcross⟩
          split
          · exact hall2
          · exact ih _ _ _ hall2
    · exact hall

/-- C1 amended: the dedup filter only checks a page's fresh records
against the accumulated records of earlier pages — whenever every
single page's own normalized batch is internally key-distinct, the
accumulated result list contains at most one record per
(company_name, normalized_domain) key; duplicates arriving on the same
page are not removed (see the counterexample). -/
theorem c1_amended (env : PipeEnv) (maxImports : Nat)
    (hpage : ∀ p ctr, keysDistinct (cleanAt env p ctr)) :
    keysDistinct (callXAI env maxImports) :=
  xaiLoop_distinct env maxImports hpage (maxImports + 1) 1 [] 0 List.Pairwise.nil

/-- One completion-response page holding the same company twice. -/
def c1Page : Str :=
  ("[\x7b\"company_name\":\"Acme\",\"url\":\"https://acme.com\"\x7d,\x7b\"company_name\":\"Acme\",\"url\":\"https://acme.com\"\x7d]").toList

def c1Env : PipeEnv :=
  ⟨none, fun _ => .error (), fun _ => [], fun _ => [], none,
   fun p => if p = 1 then some c1Page else none⟩

/-- C1 counterexample: a single page containing two fragments that
normalize to the same (company_name, normalized_domain) key leaks both
into the accumulated result — the dedup filter compares fresh records
only against earlier pages, not against one another. -/
theorem c1_counterexample :
    (callXAI c1Env 2).length = 2 ∧
    keyEq ((callXAI c1Env 2).getD 0 emptyDoc) ((callXAI c1Env 2).getD 1 emptyDoc) = true :=
  ⟨rfl, rfl⟩

def c1EnvEmpty : PipeEnv :=
  ⟨none, fun _ => .error (), fun _ => [], fun _ => [], none, fun _ => none⟩

/-- Witness for c1_amended at an environment whose pages all error. -/
theorem c1_amended_witness : keysDistinct (callXAI c1EnvEmpty 2) :=
  c1_amended c1EnvEmpty 2 (fun _ _ => List.Pairwise.nil)

/-! ## C3 machinery: the fenced-block extraction -/

def tickChar : Char := Char.ofNat 96

theorem t3_eq : t3 = [tickChar, tickChar, tickChar] := by decide

theorem dropWhile_eq_self_of_head {p : Char → Bool} {l : Str}
    (h : ∀ c, l.head? = some c → p c = false) : l.dropWhile p = l := by
  cases l with
  | nil => rfl
  | cons c t =>
    rw [List.dropWhile_cons, h c rfl]
    simp

theorem head?_dropWhile_false {p : Char → Bool} {l : Str} {c : Char}
    (h : (l.dropWhile p).head? = some c) : p c = false := by
  induction l with
  | nil => cases h
  | cons x t ih =>
    rw [List.dropWhile_cons] at h
    by_cases hx : p x = true
    · rw [if_pos hx] at h
      exact ih h
    · rw [if_neg hx] at h
      cases h
      simpa using hx

theorem dropWhile_append_of_head {p : Char → Bool} (a b : Str)
    (hb : ∀ c, b.head? = some c → p c = false) :
    (a ++ b).dropWhile p = a.dropWhile p ++ b := by
  induction a with
  | nil =>
    simp only [List.nil_append]
    exact dropWhile_eq_self_of_head hb
  | cons x t ih =>
    rw [List.cons_append, List.dropWhile_cons, List.dropWhile_cons]
    by_cases hx : p x = true
    · rw [if_pos hx, if_pos hx]
      exact ih
    · rw [if_neg hx, if_neg hx, List.cons_append]

theorem getLast?_dropWhile {p : Char → Bool} (l : Str)
    (h : l.dropWhile p ≠ []) : (l.dropWhile p).getLast? = l.getLast? := by
  induction l with
  | nil => simp at h
  | cons x t ih =>
    rw [List.dropWhile_cons] at h ⊢
    by_cases hx : p x = true
    · rw [if_pos hx] at h ⊢
      have ht : t ≠ [] := by
        intro h0
        rw [h0] at h
        simp at h
      rw [ih h]
      cases t with
      | nil => exact absurd rfl ht
      | cons y t2 => rw [List.getLast?_cons_cons]
    · rw [if_neg hx] at h ⊢

theorem jsTrim_prefix_decomp (l : Str) :
    ∃ w, dropWs l = jsTrim l ++ w ∧ w.all isJsWs = true := by
  unfold jsTrim
  refine ⟨((dropWs l).reverse.takeWhile isJsWs).reverse, ?_, ?_⟩
  · have hsplit : (dropWs l).reverse =
        (dropWs l).reverse.takeWhile isJsWs ++ (dropWs l).reverse.dropWhile isJsWs :=
      (List.takeWhile_append_dropWhile isJsWs (dropWs l).reverse).symm
    calc dropWs l = (dropWs l).reverse.reverse := (List.reverse_reverse _).symm
      _ = ((dropWs l).reverse.takeWhile isJsWs ++
            (dropWs l).reverse.dropWhile isJsWs).reverse := by rw [← hsplit]
      _ = ((dropWs l).reverse.dropWhile isJsWs).reverse ++
            ((dropWs l).reverse.takeWhile isJsWs).reverse := by rw [List.reverse_append]
  · simp only [List.all_eq_true]
    intro c hc
    exact List.mem_takeWhile_imp (List.mem_reverse.mp hc)

theorem head?_jsTrim (l : Str) (c : Char) (tl : Str) (h : jsTrim l = c :: tl) :
    (dropWs l).head? = some c := by
  obtain ⟨w, hw, _⟩ := jsTrim_prefix_decomp l
  rw [hw, h]
  rfl

theorem splitTicks_cons_none {c : Char} {rest : Str}
    (h : splitTicks (c :: rest) = none) :
    startsTicks (c :: rest) = false ∧ splitTicks rest = none := by
  simp only [splitTicks] at h
  by_cases hs : startsTicks (c :: rest) = true
  · rw [if_pos hs] at h
    cases h
  · rw [if_neg hs] at h
    refine ⟨by simpa using hs, ?_⟩
    rcases hr : splitTicks rest with _ | pr
    · rfl
    · rw [hr] at h
      cases h

theorem splitTicks_dropWhile_none (p : Char → Bool) (l : Str)
    (h : splitTicks l = none) : splitTicks (l.dropWhile p) = none := by
  induction l with
  | nil => exact h
  | cons c rest ih =>
    obtain ⟨h1, h2⟩ := splitTicks_cons_none h
    rw [List.dropWhile_cons]
    by_cases hc : p c = true
    · rw [if_pos hc]
      exact ih h2
    · rw [if_neg hc]
      simp only [splitTicks, h1]
      rw [if_neg (by simp)]
      rw [h2]
      rfl

theorem startsTicks_iff (a b c : Char) (r : Str) :
    startsTicks (a :: b :: c :: r) = true ↔
      a = tickChar ∧ b = tickChar ∧ c = tickChar := by
  simp [startsTicks, t3_eq, List.isPrefixOf]
  constructor
  · rintro ⟨h1, h2, h3⟩
    exact ⟨h1.symm, h2.symm, h3.symm⟩
  · rintro ⟨h1, h2, h3⟩
    exact ⟨h1.symm, h2.symm, h3.symm⟩

theorem splitTicks_append_t3 (l : Str) (hnone : splitTicks l = none)
    (hlast : l.getLast? ≠ some tickChar) :
    splitTicks (l ++ t3) = some (l, []) := by
  induction l with
  | nil =>
    show splitTicks t3 = some ([], [])
    decide
  | cons c rest ih =>
    obtain ⟨h1, h2⟩ := splitTicks_cons_none hnone
    have hlast2 : rest.getLast? ≠ some tickChar := by
      cases rest with
      | nil => simp
      | cons y t2 =>
        rw [List.getLast?_cons_cons] at hlast
        exact hlast
    have hstart : startsTicks ((c :: rest) ++ t3) = false := by
      cases rest with
      | nil =>
        have hc : c ≠ tickChar := by
          intro he
          exact hlast (by rw [he]; rfl)
        rw [List.cons_append, List.nil_append]
        rw [t3_eq]
        by_contra hcon
        have := (startsTicks_iff c tickChar tickChar [tickChar]).mp (by simpa using hcon)
        exact hc this.1
      | cons y t2 =>
        cases t2 with
        | nil =>
          have hy : y ≠ tickChar := by
            intro he
            exact hlast (by rw [he]; rfl)
          rw [List.cons_append, List.cons_append, List.nil_append, t3_eq]
          by_contra hcon
          have := (startsTicks_iff c y tickChar [tickChar, tickChar]).mp (by simpa using hcon)
          exact hy this.2.1
        | cons z t3' =>
          by_contra hcon
          have hcon2 : startsTicks (c :: y :: z :: (t3' ++ t3)) = true := by
            simpa using hcon
          have hd := (startsTicks_iff c y z (t3' ++ t3)).mp hcon2
          have : startsTicks (c :: y :: z :: t3') = true :=
            (startsTicks_iff c y z t3').mpr hd
          rw [this] at h1
          cases h1
    show splitTicks ((c :: rest) ++ t3) = _
    rw [List.cons_append]
    simp only [splitTicks]
    rw [if_neg (by simp [show startsTicks (c :: (rest ++ t3)) = false from hstart])]
    rw [ih h2 hlast2]
    rfl

theorem some_pair_ne_arr (v : JsVal) (r2 : Str) (l : List JsVal) (rest : Str)
    (hv : ∀ l2 : List JsVal, v = JsVal.arr l2 → False)
    (h : some (v, r2) = some (JsVal.arr l, rest)) : False := by
  injection h with h1
  exact hv l (congrArg Prod.fst h1)

theorem option_map_pair_arr {α : Type} (X : Option (α × Str)) (f : α → JsVal)
    (l : List JsVal) (rest : Str)
    (hf : ∀ (a : α) (l2 : List JsVal), f a = JsVal.arr l2 → False)
    (h : X.map (fun p => (f p.1, p.2)) = some (JsVal.arr l, rest)) : False := by
  rcases X with _ | a
  · cases h
  · injection h with h1
    exact hf a.1 l (congrArg Prod.fst h1)

theorem parseVal_arr_head (n : Nat) (s rest : Str) (l : List JsVal)
    (h : parseVal n s = some (.arr l, rest)) :
    ∃ t2, skipJsonWs s = '[' :: t2 := by
  cases n with
  | zero => cases h
  | succ m =>
    simp only [parseVal] at h
    rcases hs : skipJsonWs s with _ | ⟨c, r⟩
    · rw [hs] at h
      cases h
    · rw [hs] at h
      dsimp only at h
      by_cases h1 : c = '['
      · exact ⟨r, by rw [h1]⟩
      · exfalso
        rw [if_neg h1] at h
        by_cases h2 : c = '\x7b'
        · rw [if_pos h2] at h
          split at h
          · exact some_pair_ne_arr _ _ _ _ (fun l2 hcon => JsVal.noConfusion hcon) h
          · exact option_map_pair_arr _ _ _ _ (fun a l2 hcon => JsVal.noConfusion hcon) h
        · rw [if_neg h2] at h
          by_cases h3 : c = '"'
          · rw [if_pos h3] at h
            exact option_map_pair_arr _ _ _ _ (fun a l2 hcon => JsVal.noConfusion hcon) h
          · rw [if_neg h3] at h
            by_cases h4 : c = 't'
            · rw [if_pos h4] at h
              split at h
              · exact some_pair_ne_arr _ _ _ _ (fun l2 hcon => JsVal.noConfusion hcon) h
              · cases h
            · rw [if_neg h4] at h
              by_cases h5 : c = 'f'
              · rw [if_pos h5] at h
                split at h
                · exact some_pair_ne_arr _ _ _ _ (fun l2 hcon => JsVal.noConfusion hcon) h
                · cases h
              · rw [if_neg h5] at h
                by_cases h6 : c = 'n'
                · rw [if_pos h6] at h
                  split at h
                  · exact some_pair_ne_arr _ _ _ _ (fun l2 hcon => JsVal.noConfusion hcon) h
                  · cases h
                · rw [if_neg h6] at h
                  by_cases h7 : (c = '-' || isDigit c) = true
                  · rw [if_pos h7] at h
                    exact option_map_pair_arr _ _ _ _ (fun a l2 hcon => JsVal.noConfusion hcon) h
                  · rw [if_neg h7] at h
                    cases h

theorem jsonParse_arr_head (s : Str) (l : List JsVal)
    (h : jsonParse s = some (.arr l)) : ∃ t2, skipJsonWs s = '[' :: t2 := by
  unfold jsonParse at h
  rcases hp : parseVal (2 * s.length + 2) s with _ | pr
  · rw [hp] at h
    cases h
  · rcases pr with ⟨v, rest⟩
    rw [hp] at h
    dsimp only at h
    by_cases he : (skipJsonWs rest).isEmpty = true
    · rw [if_pos he] at h
      cases h
      exact parseVal_arr_head _ _ _ _ hp
    · rw [if_neg he] at h
      cases h

theorem jsonWs_isJsWs (c : Char) (h : isJsonWs c = true) : isJsWs c = true := by
  simp only [isJsonWs, Bool.or_eq_true, decide_eq_true_eq] at h
  rcases h with ((h | h) | h) | h <;> subst h <;> decide

theorem skipJsonWs_jsTrim (l : Str) : skipJsonWs (jsTrim l) = jsTrim l := by
  apply dropWhile_eq_self_of_head
  intro c hc
  have hd : (dropWs l).head? = some c := by
    rcases ht : jsTrim l with _ | ⟨c0, t0⟩
    · rw [ht] at hc
      cases hc
    · rw [ht] at hc
      rw [List.head?_cons, Option.some.injEq] at hc
      exact hc ▸ head?_jsTrim l c0 t0 ht
  have hw : isJsWs c = false := head?_dropWhile_false hd
  by_contra hcon
  have hj : isJsonWs c = true := by simpa using hcon
  rw [jsonWs_isJsWs c hj] at hw
  cases hw

theorem ws_toNat_small (c : Char) (h : isJsWs c = true) : c.toNat < 33 := by
  simp only [isJsWs, Bool.or_eq_true, decide_eq_true_eq] at h
  rcases h with ((((h | h) | h) | h) | h) | h <;>
    first
      | omega
      | (rw [h]; decide)

theorem lowerChar_ne_j_of_ws (c : Char) (h : isJsWs c = true) :
    ¬ lowerChar c = 'j' := by
  have hs := ws_toNat_small c h
  unfold lowerChar
  rw [if_neg (by simp only [Bool.and_eq_true, decide_eq_true_eq]; omega)]
  intro he
  have h106 : c.toNat = 106 := by
    rw [he]
    decide
  omega

theorem take4_not_json (inner t2 : Str) (hj : jsTrim inner = '[' :: t2) :
    ((inner ++ t3).take 4).map lowerChar = ("json").toList → False := by
  intro hcon
  rcases hit : inner ++ t3 with _ | ⟨c, r⟩
  · rw [t3_eq] at hit
    simp at hit
  · rw [hit] at hcon
    have hc4 : (c :: r.take 3).map lowerChar = ("json").toList := by
      simpa [List.take_succ_cons] using hcon
    have hcj : lowerChar c = 'j' := by
      have hh := congrArg List.head? hc4
      simpa using hh
    cases inner with
    | nil =>
      rw [t3_eq, List.nil_append] at hit
      have hc : c = tickChar := by
        injection hit with h1 h2
        exact h1.symm
      rw [hc] at hcj
      exact absurd hcj (by decide)
    | cons a as =>
      have hca : a = c := by
        rw [List.cons_append] at hit
        injection hit with h1 h2
      by_cases hws : isJsWs a = true
      · exact lowerChar_ne_j_of_ws a hws (by rw [hca]; exact hcj)
      · have h1 : dropWs (a :: as) = a :: as := by
          unfold dropWs
          rw [List.dropWhile_cons, if_neg hws]
        have h2 := head?_jsTrim (a :: as) '[' t2 hj
        rw [h1, List.head?_cons, Option.some.injEq] at h2
        rw [← hca, h2] at hcj
        exact absurd hcj (by decide)

theorem fenceCapture_inner (inner t2 : Str)
    (hticks : splitTicks inner = none)
    (hlast : inner.getLast? ≠ some tickChar)
    (hj : jsTrim inner = '[' :: t2) :
    fenceCapture (inner ++ t3) = some (dropWs inner) := by
  simp only [fenceCapture]
  rw [if_neg (fun hcon => take4_not_json inner t2 hj hcon)]
  have hd : dropWs (inner ++ t3) = dropWs inner ++ t3 := by
    unfold dropWs
    refine dropWhile_append_of_head _ _ ?_
    intro c hc
    rw [t3_eq, List.head?_cons, Option.some.injEq] at hc
    rw [← hc]
    decide
  rw [hd]
  have hlast2 : (dropWs inner).getLast? ≠ some tickChar := by
    by_cases hde : dropWs inner = []
    · rw [hde]
      simp
    · unfold dropWs
      rw [getLast?_dropWhile inner hde]
      exact hlast
  rw [splitTicks_append_t3 (dropWs inner) (splitTicks_dropWhile_none isJsWs inner hticks) hlast2]
  rfl

theorem fenceFind_wrap (inner cap : Str)
    (hcap : fenceCapture (inner ++ t3) = some cap) :
    fenceFind (t3 ++ (inner ++ t3)) = some cap := by
  have hst : startsTicks (tickChar :: tickChar :: tickChar :: (inner ++ t3)) = true :=
    (startsTicks_iff _ _ _ _).mpr ⟨rfl, rfl, rfl⟩
  rw [t3_eq]
  show fenceFind (tickChar :: tickChar :: tickChar :: (inner ++ t3)) = some cap
  simp only [fenceFind]
  rw [if_pos hst]
  show (match fenceCapture (inner ++ t3) with
    | some cap => some cap
    | none => fenceFind (tickChar :: tickChar :: (inner ++ t3))) = some cap
  rw [hcap]

theorem jsTrim_eq_self (l : Str)
    (h1 : ∀ c, l.head? = some c → isJsWs c = false)
    (h2 : ∀ c, l.getLast? = some c → isJsWs c = false) : jsTrim l = l := by
  unfold jsTrim dropWs
  rw [dropWhile_eq_self_of_head h1]
  rw [dropWhile_eq_self_of_head (fun c hc => h2 c (by rwa [List.head?_reverse] at hc))]
  rw [List.reverse_reverse]

theorem jsTrim_dropWs (l : Str) : jsTrim (dropWs l) = jsTrim l := by
  unfold jsTrim
  have : dropWs (dropWs l) = dropWs l := by
    unfold dropWs
    apply dropWhile_eq_self_of_head
    intro c hc
    exact head?_dropWhile_false hc
  rw [this]

/-- C3: for every input text that is a fenced code block (three backticks,
arbitrary inner content, three backticks) whose inner content trims to a
valid JSON array — with no stray fence inside the inner content, and the
inner content not ending in a backtick (which would merge into the
closing fence) — trimToArrayJson returns exactly the value obtained by
parsing the inner content directly as JSON, with the "array" note. -/
theorem c3_fenced_extract (inner : Str) (l : List JsVal)
    (hticks : splitTicks inner = none)
    (hlast : inner.getLast? ≠ some tickChar)
    (hparse : jsonParse (jsTrim inner) = some (JsVal.arr l)) :
    trimToArrayJson (t3 ++ (inner ++ t3)) =
      (some (JsVal.arr l), ("array").toList) := by
  obtain ⟨t2, hj0⟩ := jsonParse_arr_head (jsTrim inner) l hparse
  rw [skipJsonWs_jsTrim] at hj0
  have hcap := fenceCapture_inner inner t2 hticks hlast hj0
  have hfind := fenceFind_wrap inner (dropWs inner) hcap
  have htrim : jsTrim (t3 ++ (inner ++ t3)) = t3 ++ (inner ++ t3) := by
    apply jsTrim_eq_self
    · intro c hc
      rw [t3_eq] at hc
      simp only [List.cons_append, List.head?_cons, Option.some.injEq] at hc
      rw [← hc]
      decide
    · intro c hc
      rw [List.getLast?_append_of_ne_nil _ (by simp [t3_eq]),
          List.getLast?_append_of_ne_nil _ (by simp [t3_eq])] at hc
      have h3 : t3.getLast? = some tickChar := by decide
      rw [h3, Option.some.injEq] at hc
      rw [← hc]
      decide
  have hparse2 : jsonParse ('[' :: t2) = some (JsVal.arr l) := hj0 ▸ hparse
  unfold trimToArrayJson
  rw [if_neg (by simp [t3_eq])]
  dsimp only []
  rw [htrim, hfind]
  dsimp only []
  rw [jsTrim_dropWs, hj0, hparse2]
  rfl

/-- Witness for c3_fenced_extract at a concrete fenced array. -/
theorem c3_fenced_extract_witness :
    trimToArrayJson (t3 ++ ((" [true] ").toList ++ t3)) =
      (some (JsVal.arr [JsVal.bool true]), ("array").toList) :=
  c3_fenced_extract (" [true] ").toList [JsVal.bool true]
    (by decide) (by decide) rfl
